import Mathlib

/-!
Verification of the Minesweeper board engine of `src/game/map.js`
(class `Map`) and its controller (class `Game` in the same bundle).

Shallow embedding conventions:
* A JS cell `[n, b, f, c]` (visual number, bomb, flag, covered) becomes the
  structure `Cell` with four `Nat` fields; `Cell.get`/`Cell.setSlot` mirror
  indexing `grid[y][x][i]` for `i ∈ {0,1,2,3}`.
* The grid `this.grid[y][x]` becomes a total function `Int → Int → Cell`;
  all reads and writes in the source are guarded by `inMap`, so values at
  out-of-bounds coordinates are never observed.  Coordinates are `Int`
  because the source forms `startX + dx` with `dx = -1`.
* `getCell` returns `Option Nat`: `none` models the `undefined` that the JS
  function returns for out-of-bounds coordinates.  (The DOM button lookup in
  `getCell` succeeds for every in-bounds cell, since `Game.initialize`
  creates a button per cell and never removes it, so it adds no other
  `undefined` case.)
* `Math.random()`-driven draws of `generateBombs` become an explicit list of
  coordinate draws; the JS loop that can spin forever becomes an `Option`
  result, `none` when the supplied stream is exhausted first.  Each JS draw
  `Math.floor(Math.random()*w)` is in `[0, w)`, which theorems carry as a
  hypothesis on the draw list.
* The recursive `_flood` becomes a fuel-indexed function instrumented with
  the list of cells it is invoked on and an `ok` flag that records that the
  fuel bound was never hit; `floodFill` runs it with fuel `w*h`, which the
  termination theorem proves sufficient.
* DOM-only code (`updateCell`, `updateMap`, status messages, button
  disabling) has no cell-state effect and is dropped; the status string
  written by `setStatus` is kept as a `status` field of the game state.
-/

/-- One grid cell `[visual number, bomb, flag, covered]` of `map.js`. -/
structure Cell where
  num : Nat
  bomb : Nat
  flag : Nat
  covered : Nat
deriving Repr, DecidableEq

/-- `cell[i]` for the slot indices used by the source (0,1,2,3). -/
def Cell.get (c : Cell) (i : Nat) : Nat :=
  if i = 0 then c.num
  else if i = 1 then c.bomb
  else if i = 2 then c.flag
  else c.covered

/-- `cell[i] = v` for the slot indices used by the source. -/
def Cell.setSlot (c : Cell) (i v : Nat) : Cell :=
  if i = 0 then { c with num := v }
  else if i = 1 then { c with bomb := v }
  else if i = 2 then { c with flag := v }
  else { c with covered := v }

/-- The board of class `Map`: width, height and the grid.  `grid y x`
mirrors `this.grid[y][x]`. -/
structure GameMap where
  w : Nat
  h : Nat
  grid : Int → Int → Cell

/-- `Map.inMap`: `x >= 0 && y >= 0 && x < this.w && y < this.h`. -/
def GameMap.inMap (b : GameMap) (x y : Int) : Bool :=
  x ≥ 0 && y ≥ 0 && x < (b.w : Int) && y < (b.h : Int)

/-- `Map.getCell`: `undefined` (here `none`) out of bounds, else the slot. -/
def GameMap.getCell (b : GameMap) (x y : Int) (i : Nat) : Option Nat :=
  if b.inMap x y then some ((b.grid y x).get i) else none

/-- `Map.setCell`: no-op out of bounds, else update one slot of one cell
(the trailing `updateCell` call is DOM-only). -/
def GameMap.setCell (b : GameMap) (x y : Int) (i v : Nat) : GameMap :=
  if b.inMap x y then
    { b with grid := fun y' x' =>
        if y' = y ∧ x' = x then (b.grid y x).setSlot i v else b.grid y' x' }
  else b

/-- The freshly constructed board of `Map.constructor`: every cell
`[0, 0, 0, 1]`. -/
def mkMap (width height : Nat) : GameMap :=
  { w := width, h := height, grid := fun _ _ => ⟨0, 0, 0, 1⟩ }

/-- The loop bounds `-1..1` of the source's neighborhood loops. -/
def offsets3 : List Int := [-1, 0, 1]

/-- The forbidden set built at the top of `generateBombs`: outer loop over
`dy`, inner over `dx`, adding `(startX+dx, startY+dy)` when in bounds. -/
def forbiddenList (b : GameMap) (startX startY : Int) : List (Int × Int) :=
  offsets3.flatMap (fun dy => offsets3.filterMap (fun dx =>
    if b.inMap (startX + dx) (startY + dy) then some (startX + dx, startY + dy)
    else none))

/-- The nine `(dx, dy)` pairs of the bomb-placement update loop of
`generateBombs`, in source order (`dy` outer, `dx` inner). -/
def bumpOffsets : List (Int × Int) :=
  [(-1, -1), (0, -1), (1, -1), (-1, 0), (0, 0), (1, 0), (-1, 1), (0, 1), (1, 1)]

/-- One iteration of the count-update loop: if `(cx, cy)` is in bounds,
`setCell(cx, cy, 0, getCell(cx, cy, 0) + 1)`. -/
def bumpNum (b : GameMap) (cx cy : Int) : GameMap :=
  if b.inMap cx cy then b.setCell cx cy 0 ((b.grid cy cx).get 0 + 1) else b

/-- The body of one accepted draw of `generateBombs`: place the bomb at
`(x, y)` and bump the visual number of all nine in-bounds neighbours. -/
def placeBombAt (b : GameMap) (x y : Int) : GameMap :=
  bumpOffsets.foldl (fun bb d => bumpNum bb (x + d.1) (y + d.2))
    (b.setCell x y 1 1)

/-- The `while (count < bombCount)` loop of `generateBombs`, with the random
draws supplied as a list; `none` when the draws run out before `bombCount`
bombs are placed (the JS loop would keep drawing). -/
def generateBombsAux (forbidden : List (Int × Int)) :
    GameMap → Nat → List (Int × Int) → Option GameMap
  | b, 0, _ => some b
  | _, _ + 1, [] => none
  | b, need + 1, (x, y) :: rest =>
    if (x, y) ∈ forbidden then generateBombsAux forbidden b (need + 1) rest
    else if b.getCell x y 1 = some 1 then generateBombsAux forbidden b (need + 1) rest
    else generateBombsAux forbidden (placeBombAt b x y) need rest

/-- `Map.generateBombs(bombCount, startX, startY)` with the random stream
made explicit. -/
def GameMap.generateBombs (b : GameMap) (bombCount : Nat) (startX startY : Int)
    (draws : List (Int × Int)) : Option GameMap :=
  generateBombsAux (forbiddenList b startX startY) b bombCount draws

/-- The in-bounds coordinate pairs `(x, y)` of a board, as a finite set. -/
def inBoundsSet (b : GameMap) : Finset (Int × Int) :=
  (Finset.range b.w ×ˢ Finset.range b.h).map
    ⟨fun p => ((p.1 : Int), (p.2 : Int)), by
      intro p q hpq
      simp only [Prod.mk.injEq] at hpq
      exact Prod.ext (by exact_mod_cast hpq.1) (by exact_mod_cast hpq.2)⟩

/-- Number of cells whose bomb slot is `1`. -/
def countBombs (b : GameMap) : Nat :=
  ((inBoundsSet b).filter (fun p => (b.grid p.2 p.1).bomb = 1)).card

/-- Mined cells in the 8-neighborhood of `(cx, cy)` — the eight surrounding
positions, excluding the cell itself, clipped to bounds.  This follows the
spec's wording of `adjacentMineCount`. -/
def mines8 (b : GameMap) (cx cy : Int) : Nat :=
  ((inBoundsSet b).filter (fun p =>
    p ≠ (cx, cy) ∧ (p.1 - cx).natAbs ≤ 1 ∧ (p.2 - cy).natAbs ≤ 1 ∧
      (b.grid p.2 p.1).bomb = 1)).card

/-- Mined cells in the 9-neighborhood of `(cx, cy)` — the 8-neighborhood
plus the cell itself, clipped to bounds. -/
def mines9 (b : GameMap) (cx cy : Int) : Nat :=
  ((inBoundsSet b).filter (fun p =>
    (p.1 - cx).natAbs ≤ 1 ∧ (p.2 - cy).natAbs ≤ 1 ∧
      (b.grid p.2 p.1).bomb = 1)).card

-- Basic lemmas about the embedding.

theorem mem_inBoundsSet {b : GameMap} {p : Int × Int} :
    p ∈ inBoundsSet b ↔ b.inMap p.1 p.2 = true := by
  obtain ⟨x, y⟩ := p
  simp only [inBoundsSet, Finset.mem_map, Finset.mem_product, Finset.mem_range,
    Function.Embedding.coeFn_mk, Prod.mk.injEq, Prod.exists, GameMap.inMap,
    Bool.and_eq_true, decide_eq_true_eq]
  constructor
  · rintro ⟨a, c, ⟨ha, hc⟩, hx, hy⟩
    subst hx; subst hy
    refine ⟨⟨⟨by positivity, ?_⟩, ?_⟩, ?_⟩ <;> omega
  · rintro ⟨⟨⟨hx0, hy0⟩, hxw⟩, hyh⟩
    exact ⟨x.toNat, y.toNat, ⟨by omega, by omega⟩, by omega, by omega⟩

theorem card_inBoundsSet (b : GameMap) : (inBoundsSet b).card = b.w * b.h := by
  simp [inBoundsSet]

theorem Cell.get_zero (c : Cell) : c.get 0 = c.num := rfl

theorem Cell.get_one (c : Cell) : c.get 1 = c.bomb := rfl

theorem Cell.get_two (c : Cell) : c.get 2 = c.flag := rfl

theorem Cell.get_three (c : Cell) : c.get 3 = c.covered := rfl

theorem GameMap.setCell_w (b : GameMap) (x y : Int) (i v : Nat) :
    (b.setCell x y i v).w = b.w := by
  unfold GameMap.setCell; split <;> rfl

theorem GameMap.setCell_h (b : GameMap) (x y : Int) (i v : Nat) :
    (b.setCell x y i v).h = b.h := by
  unfold GameMap.setCell; split <;> rfl

theorem GameMap.setCell_grid (b : GameMap) (x y : Int) (i v : Nat) (qy qx : Int) :
    (b.setCell x y i v).grid qy qx =
      if b.inMap x y = true ∧ qy = y ∧ qx = x then (b.grid y x).setSlot i v
      else b.grid qy qx := by
  unfold GameMap.setCell
  by_cases hb : b.inMap x y = true
  · by_cases hq : qy = y ∧ qx = x
    · simp [hb, hq]
    · simp [hb, hq]
  · simp [hb]

theorem inMap_congr {b b' : GameMap} (hw : b'.w = b.w) (hh : b'.h = b.h)
    (x y : Int) : b'.inMap x y = b.inMap x y := by
  simp [GameMap.inMap, hw, hh]

theorem inBoundsSet_congr {b b' : GameMap} (hw : b'.w = b.w) (hh : b'.h = b.h) :
    inBoundsSet b' = inBoundsSet b := by
  simp [inBoundsSet, hw, hh]

theorem bumpNum_w (b : GameMap) (tx ty : Int) : (bumpNum b tx ty).w = b.w := by
  unfold bumpNum; split
  · exact b.setCell_w tx ty 0 _
  · rfl

theorem bumpNum_h (b : GameMap) (tx ty : Int) : (bumpNum b tx ty).h = b.h := by
  unfold bumpNum; split
  · exact b.setCell_h tx ty 0 _
  · rfl

theorem bumpNum_grid (b : GameMap) (tx ty : Int) (qy qx : Int) :
    (bumpNum b tx ty).grid qy qx =
      if b.inMap tx ty = true ∧ qy = ty ∧ qx = tx then
        { b.grid ty tx with num := (b.grid ty tx).num + 1 }
      else b.grid qy qx := by
  unfold bumpNum
  by_cases hb : b.inMap tx ty = true
  · simp only [hb, if_true, true_and]
    rw [GameMap.setCell_grid]
    simp only [hb, true_and]
    by_cases hq : qy = ty ∧ qx = tx
    · simp only [hq, if_true]; rfl
    · simp [hq]
  · simp [hb]

theorem Cell.setSlot_zero (c : Cell) (v : Nat) : c.setSlot 0 v = { c with num := v } := rfl

theorem Cell.setSlot_one (c : Cell) (v : Nat) : c.setSlot 1 v = { c with bomb := v } := rfl

theorem Cell.setSlot_two (c : Cell) (v : Nat) : c.setSlot 2 v = { c with flag := v } := rfl

theorem Cell.setSlot_three (c : Cell) (v : Nat) : c.setSlot 3 v = { c with covered := v } := rfl

-- Effect of the count-update loop of `generateBombs` folded over an
-- arbitrary offset list, one cell field at a time.

theorem bumpFold_w (x y : Int) (l : List (Int × Int)) (b : GameMap) :
    (l.foldl (fun bb d => bumpNum bb (x + d.1) (y + d.2)) b).w = b.w := by
  induction l generalizing b with
  | nil => rfl
  | cons d l ih => rw [List.foldl_cons, ih, bumpNum_w]

theorem bumpFold_h (x y : Int) (l : List (Int × Int)) (b : GameMap) :
    (l.foldl (fun bb d => bumpNum bb (x + d.1) (y + d.2)) b).h = b.h := by
  induction l generalizing b with
  | nil => rfl
  | cons d l ih => rw [List.foldl_cons, ih, bumpNum_h]

theorem bumpFold_bomb (x y : Int) (l : List (Int × Int)) (b : GameMap) (qy qx : Int) :
    ((l.foldl (fun bb d => bumpNum bb (x + d.1) (y + d.2)) b).grid qy qx).bomb =
      (b.grid qy qx).bomb := by
  induction l generalizing b with
  | nil => rfl
  | cons d l ih =>
    rw [List.foldl_cons, ih, bumpNum_grid]
    split
    · next hcond =>
      obtain ⟨_, h1, h2⟩ := hcond
      subst h1; subst h2; rfl
    · rfl

theorem bumpFold_flag (x y : Int) (l : List (Int × Int)) (b : GameMap) (qy qx : Int) :
    ((l.foldl (fun bb d => bumpNum bb (x + d.1) (y + d.2)) b).grid qy qx).flag =
      (b.grid qy qx).flag := by
  induction l generalizing b with
  | nil => rfl
  | cons d l ih =>
    rw [List.foldl_cons, ih, bumpNum_grid]
    split
    · next hcond =>
      obtain ⟨_, h1, h2⟩ := hcond
      subst h1; subst h2; rfl
    · rfl

theorem bumpFold_covered (x y : Int) (l : List (Int × Int)) (b : GameMap) (qy qx : Int) :
    ((l.foldl (fun bb d => bumpNum bb (x + d.1) (y + d.2)) b).grid qy qx).covered =
      (b.grid qy qx).covered := by
  induction l generalizing b with
  | nil => rfl
  | cons d l ih =>
    rw [List.foldl_cons, ih, bumpNum_grid]
    split
    · next hcond =>
      obtain ⟨_, h1, h2⟩ := hcond
      subst h1; subst h2; rfl
    · rfl

theorem bumpFold_num (x y : Int) (l : List (Int × Int)) (b : GameMap) (qy qx : Int) :
    ((l.foldl (fun bb d => bumpNum bb (x + d.1) (y + d.2)) b).grid qy qx).num =
      (b.grid qy qx).num +
        (if b.inMap qx qy = true then
          (l.filter (fun d => x + d.1 = qx ∧ y + d.2 = qy)).length else 0) := by
  induction l generalizing b with
  | nil => cases hb : b.inMap qx qy <;> simp [hb]
  | cons d l ih =>
    rw [List.foldl_cons, ih]
    have hin : (bumpNum b (x + d.1) (y + d.2)).inMap qx qy = b.inMap qx qy :=
      inMap_congr (bumpNum_w ..) (bumpNum_h ..) qx qy
    rw [hin, bumpNum_grid, List.filter_cons]
    by_cases hpd : x + d.1 = qx ∧ y + d.2 = qy
    · obtain ⟨h1, h2⟩ := hpd
      subst h1; subst h2
      by_cases hq : b.inMap (x + d.1) (y + d.2) = true
      · simp [hq]
        omega
      · simp [hq]
    · have hcond : ¬ (b.inMap (x + d.1) (y + d.2) = true ∧ qy = y + d.2 ∧ qx = x + d.1) := by
        intro hc
        exact hpd ⟨by omega, by omega⟩
      rw [if_neg hcond]
      have : (decide (x + d.1 = qx ∧ y + d.2 = qy)) = false := by
        simp only [decide_eq_false_iff_not]
        exact hpd
      simp [this]

theorem bumpOffsets_filter_length (x y qx qy : Int) :
    (bumpOffsets.filter (fun d => x + d.1 = qx ∧ y + d.2 = qy)).length =
      if (qx - x).natAbs ≤ 1 ∧ (qy - y).natAbs ≤ 1 then 1 else 0 := by
  have hcongr : (bumpOffsets.filter (fun d => x + d.1 = qx ∧ y + d.2 = qy)) =
      (bumpOffsets.filter (fun d => d.1 = qx - x ∧ d.2 = qy - y)) := by
    apply List.filter_congr
    intro d _
    simp only [decide_eq_decide]
    omega
  rw [hcongr]
  by_cases h : (qx - x).natAbs ≤ 1 ∧ (qy - y).natAbs ≤ 1
  · rw [if_pos h]
    have hx : qx - x = -1 ∨ qx - x = 0 ∨ qx - x = 1 := by omega
    have hy : qy - y = -1 ∨ qy - y = 0 ∨ qy - y = 1 := by omega
    rcases hx with hx | hx | hx <;> rcases hy with hy | hy | hy <;>
      rw [hx, hy] <;> decide
  · rw [if_neg h]
    simp only [List.length_eq_zero, List.filter_eq_nil_iff, decide_eq_true_eq]
    intro d hd
    fin_cases hd <;> simp_all <;> omega

theorem placeBombAt_w (b : GameMap) (x y : Int) : (placeBombAt b x y).w = b.w := by
  unfold placeBombAt
  rw [bumpFold_w, GameMap.setCell_w]

theorem placeBombAt_h (b : GameMap) (x y : Int) : (placeBombAt b x y).h = b.h := by
  unfold placeBombAt
  rw [bumpFold_h, GameMap.setCell_h]

theorem placeBombAt_bomb (b : GameMap) (x y : Int) (hxy : b.inMap x y = true)
    (qy qx : Int) :
    ((placeBombAt b x y).grid qy qx).bomb =
      if qy = y ∧ qx = x then 1 else (b.grid qy qx).bomb := by
  unfold placeBombAt
  rw [bumpFold_bomb, GameMap.setCell_grid]
  by_cases hq : qy = y ∧ qx = x
  · simp [hxy, hq, Cell.setSlot_one]
  · simp [hxy, hq]

theorem placeBombAt_flag (b : GameMap) (x y : Int) (qy qx : Int) :
    ((placeBombAt b x y).grid qy qx).flag = (b.grid qy qx).flag := by
  unfold placeBombAt
  rw [bumpFold_flag, GameMap.setCell_grid]
  split
  · next hcond =>
    obtain ⟨_, h1, h2⟩ := hcond
    subst h1; subst h2
    rw [Cell.setSlot_one]
  · rfl

theorem placeBombAt_covered (b : GameMap) (x y : Int) (qy qx : Int) :
    ((placeBombAt b x y).grid qy qx).covered = (b.grid qy qx).covered := by
  unfold placeBombAt
  rw [bumpFold_covered, GameMap.setCell_grid]
  split
  · next hcond =>
    obtain ⟨_, h1, h2⟩ := hcond
    subst h1; subst h2
    rw [Cell.setSlot_one]
  · rfl

theorem placeBombAt_num (b : GameMap) (x y : Int) (qy qx : Int) :
    ((placeBombAt b x y).grid qy qx).num =
      (b.grid qy qx).num +
        (if b.inMap qx qy = true ∧ (qx - x).natAbs ≤ 1 ∧ (qy - y).natAbs ≤ 1
         then 1 else 0) := by
  unfold placeBombAt
  rw [bumpFold_num]
  have hin : (b.setCell x y 1 1).inMap qx qy = b.inMap qx qy :=
    inMap_congr (b.setCell_w x y 1 1) (b.setCell_h x y 1 1) qx qy
  have hnum : ((b.setCell x y 1 1).grid qy qx).num = (b.grid qy qx).num := by
    rw [GameMap.setCell_grid]
    split
    · next hcond =>
      obtain ⟨_, h1, h2⟩ := hcond
      subst h1; subst h2
      rw [Cell.setSlot_one]
    · rfl
  rw [hin, hnum, bumpOffsets_filter_length]
  by_cases hq : b.inMap qx qy = true
  · by_cases hnear : (qx - x).natAbs ≤ 1 ∧ (qy - y).natAbs ≤ 1
    · simp [hq, hnear]
    · simp [hq, hnear]
  · simp [hq]

theorem getCell_in {b : GameMap} {x y : Int} (hb : b.inMap x y = true) (i : Nat) :
    b.getCell x y i = some ((b.grid y x).get i) := by
  simp [GameMap.getCell, hb]

theorem getCell_out {b : GameMap} {x y : Int} (hb : ¬ b.inMap x y = true) (i : Nat) :
    b.getCell x y i = none := by
  simp [GameMap.getCell, hb]

theorem getCell_bomb_iff {b : GameMap} {x y : Int} :
    b.getCell x y 1 = some 1 ↔ b.inMap x y = true ∧ (b.grid y x).bomb = 1 := by
  by_cases hb : b.inMap x y = true
  · rw [getCell_in hb, Cell.get_one]
    simp [hb]
  · rw [getCell_out hb]
    simp [hb]

theorem mem_forbiddenList {b : GameMap} {sx sy : Int} {p : Int × Int} :
    p ∈ forbiddenList b sx sy ↔
      b.inMap p.1 p.2 = true ∧ (p.1 - sx).natAbs ≤ 1 ∧ (p.2 - sy).natAbs ≤ 1 := by
  obtain ⟨a, c⟩ := p
  simp only [forbiddenList, offsets3, List.mem_flatMap, List.mem_filterMap,
    List.mem_cons, List.not_mem_nil, or_false]
  constructor
  · rintro ⟨dy, hdy, dx, hdx, heq⟩
    split at heq
    · next hin =>
      simp only [Option.some.injEq, Prod.mk.injEq] at heq
      obtain ⟨h1, h2⟩ := heq
      subst h1; subst h2
      refine ⟨hin, ?_, ?_⟩ <;> rcases hdx with h | h | h <;>
        rcases hdy with h' | h' | h' <;> omega
    · exact absurd heq (by simp)
  · rintro ⟨hin, h1, h2⟩
    refine ⟨c - sy, by omega, a - sx, by omega, ?_⟩
    have hx : sx + (a - sx) = a := by omega
    have hy : sy + (c - sy) = c := by omega
    rw [hx, hy, if_pos hin]

theorem countBombs_placeBombAt {b : GameMap} {x y : Int}
    (hxy : b.inMap x y = true) (hnew : ¬ (b.grid y x).bomb = 1) :
    countBombs (placeBombAt b x y) = countBombs b + 1 := by
  unfold countBombs
  rw [inBoundsSet_congr (placeBombAt_w b x y) (placeBombAt_h b x y)]
  have hset : (inBoundsSet b).filter
        (fun p => ((placeBombAt b x y).grid p.2 p.1).bomb = 1) =
      insert (x, y) ((inBoundsSet b).filter (fun p => (b.grid p.2 p.1).bomb = 1)) := by
    ext p
    obtain ⟨a, c⟩ := p
    simp only [Finset.mem_filter, Finset.mem_insert, Prod.mk.injEq]
    rw [placeBombAt_bomb b x y hxy]
    constructor
    · rintro ⟨hmem, hbomb⟩
      by_cases hq : c = y ∧ a = x
      · exact Or.inl ⟨hq.2, hq.1⟩
      · rw [if_neg hq] at hbomb
        exact Or.inr ⟨hmem, hbomb⟩
    · rintro (⟨h1, h2⟩ | ⟨hmem, hbomb⟩)
      · subst h1; subst h2
        exact ⟨mem_inBoundsSet.mpr hxy, by simp⟩
      · refine ⟨hmem, ?_⟩
        split
        · rfl
        · exact hbomb
  rw [hset, Finset.card_insert_of_not_mem]
  simp only [Finset.mem_filter, not_and]
  intro _
  exact hnew

theorem mines9_placeBombAt {b : GameMap} {x y : Int}
    (hxy : b.inMap x y = true) (hnew : ¬ (b.grid y x).bomb = 1) (qx qy : Int) :
    mines9 (placeBombAt b x y) qx qy =
      mines9 b qx qy +
        (if (x - qx).natAbs ≤ 1 ∧ (y - qy).natAbs ≤ 1 then 1 else 0) := by
  unfold mines9
  rw [inBoundsSet_congr (placeBombAt_w b x y) (placeBombAt_h b x y)]
  by_cases hnear : (x - qx).natAbs ≤ 1 ∧ (y - qy).natAbs ≤ 1
  · rw [if_pos hnear]
    have hset : (inBoundsSet b).filter (fun p =>
          (p.1 - qx).natAbs ≤ 1 ∧ (p.2 - qy).natAbs ≤ 1 ∧
            ((placeBombAt b x y).grid p.2 p.1).bomb = 1) =
        insert (x, y) ((inBoundsSet b).filter (fun p =>
          (p.1 - qx).natAbs ≤ 1 ∧ (p.2 - qy).natAbs ≤ 1 ∧
            (b.grid p.2 p.1).bomb = 1)) := by
      ext p
      obtain ⟨a, c⟩ := p
      simp only [Finset.mem_filter, Finset.mem_insert, Prod.mk.injEq]
      rw [placeBombAt_bomb b x y hxy]
      constructor
      · rintro ⟨hmem, hd1, hd2, hbomb⟩
        by_cases hq : c = y ∧ a = x
        · exact Or.inl ⟨hq.2, hq.1⟩
        · rw [if_neg hq] at hbomb
          exact Or.inr ⟨hmem, hd1, hd2, hbomb⟩
      · rintro (⟨h1, h2⟩ | ⟨hmem, hd1, hd2, hbomb⟩)
        · subst h1; subst h2
          refine ⟨mem_inBoundsSet.mpr hxy, by omega, by omega, by simp⟩
        · refine ⟨hmem, hd1, hd2, ?_⟩
          split
          · rfl
          · exact hbomb
    rw [hset, Finset.card_insert_of_not_mem]
    simp only [Finset.mem_filter, not_and]
    intro _ _ _
    exact hnew
  · rw [if_neg hnear, Nat.add_zero]
    congr 1
    apply Finset.filter_congr
    intro p hp
    obtain ⟨a, c⟩ := p
    rw [placeBombAt_bomb b x y hxy]
    constructor
    · rintro ⟨hd1, hd2, hbomb⟩
      refine ⟨hd1, hd2, ?_⟩
      by_cases hq : c = y ∧ a = x
      · exact absurd ⟨by omega, by omega⟩ hnear
      · rwa [if_neg hq] at hbomb
    · rintro ⟨hd1, hd2, hbomb⟩
      refine ⟨hd1, hd2, ?_⟩
      by_cases hq : c = y ∧ a = x
      · exact absurd ⟨by omega, by omega⟩ hnear
      · rwa [if_neg hq]

/-- The number invariant maintained by bomb placement: every in-bounds
cell's visual number equals the number of mined cells in its 9-neighborhood
(the placement loop bumps the bomb's own cell as well). -/
def numInv (b : GameMap) : Prop :=
  ∀ qx qy : Int, b.inMap qx qy = true → (b.grid qy qx).num = mines9 b qx qy

theorem numInv_placeBombAt {b : GameMap} {x y : Int}
    (hxy : b.inMap x y = true) (hnew : ¬ (b.grid y x).bomb = 1)
    (h : numInv b) : numInv (placeBombAt b x y) := by
  intro qx qy hq
  have hq' : b.inMap qx qy = true := by
    rwa [inMap_congr (placeBombAt_w b x y) (placeBombAt_h b x y)] at hq
  rw [placeBombAt_num, mines9_placeBombAt hxy hnew, h qx qy hq']
  have hiff : (b.inMap qx qy = true ∧ (qx - x).natAbs ≤ 1 ∧ (qy - y).natAbs ≤ 1) ↔
      ((x - qx).natAbs ≤ 1 ∧ (y - qy).natAbs ≤ 1) := by
    constructor
    · rintro ⟨_, h1, h2⟩
      constructor <;> omega
    · rintro ⟨h1, h2⟩
      exact ⟨hq', by omega, by omega⟩
  rw [if_congr hiff rfl rfl]

theorem numInv_of_no_bombs {b : GameMap}
    (h : ∀ qy qx : Int, (b.grid qy qx).num = 0 ∧ ¬ (b.grid qy qx).bomb = 1) :
    numInv b := by
  intro qx qy _
  rw [(h qy qx).1]
  unfold mines9
  rw [eq_comm, Finset.card_eq_zero, Finset.filter_eq_empty_iff]
  rintro p _ ⟨_, _, hbomb⟩
  exact (h p.2 p.1).2 hbomb

/-- Main loop invariant of `generateBombs`: dimensions are preserved, every
accepted draw adds exactly one bomb, every bomb is an old bomb or an
in-bounds non-forbidden cell, and flag/covered slots are untouched. -/
theorem genAux_spec (F : List (Int × Int)) :
    ∀ (draws : List (Int × Int)) (b : GameMap) (need : Nat) (b' : GameMap),
    (∀ d ∈ draws, b.inMap d.1 d.2 = true) →
    generateBombsAux F b need draws = some b' →
    b'.w = b.w ∧ b'.h = b.h ∧
    countBombs b' = countBombs b + need ∧
    (∀ qx qy : Int, (b'.grid qy qx).bomb = 1 →
      (b.grid qy qx).bomb = 1 ∨ ((qx, qy) ∉ F ∧ b.inMap qx qy = true)) ∧
    (∀ qy qx : Int, (b'.grid qy qx).flag = (b.grid qy qx).flag ∧
      (b'.grid qy qx).covered = (b.grid qy qx).covered) := by
  intro draws
  induction draws with
  | nil =>
    intro b need b' _ heq
    cases need with
    | zero =>
      simp only [generateBombsAux, Option.some.injEq] at heq
      subst heq
      exact ⟨rfl, rfl, by simp, fun qx qy hb => Or.inl hb, fun qy qx => ⟨rfl, rfl⟩⟩
    | succ n => simp [generateBombsAux] at heq
  | cons d rest ih =>
    intro b need b' hdraws heq
    obtain ⟨x, y⟩ := d
    cases need with
    | zero =>
      simp only [generateBombsAux, Option.some.injEq] at heq
      subst heq
      exact ⟨rfl, rfl, by simp, fun qx qy hb => Or.inl hb, fun qy qx => ⟨rfl, rfl⟩⟩
    | succ n =>
      have hxy : b.inMap x y = true := hdraws (x, y) (List.mem_cons_self _ _)
      have hrest : ∀ d ∈ rest, b.inMap d.1 d.2 = true :=
        fun d hd => hdraws d (List.mem_cons_of_mem _ hd)
      simp only [generateBombsAux] at heq
      by_cases hf : (x, y) ∈ F
      · rw [if_pos hf] at heq
        exact ih b (n + 1) b' hrest heq
      · rw [if_neg hf] at heq
        by_cases hold : b.getCell x y 1 = some 1
        · rw [if_pos hold] at heq
          exact ih b (n + 1) b' hrest heq
        · rw [if_neg hold] at heq
          have hnew : ¬ (b.grid y x).bomb = 1 := by
            intro hb
            exact hold (getCell_bomb_iff.mpr ⟨hxy, hb⟩)
          have hrest' : ∀ d ∈ rest, (placeBombAt b x y).inMap d.1 d.2 = true := by
            intro d hd
            rw [inMap_congr (placeBombAt_w b x y) (placeBombAt_h b x y)]
            exact hrest d hd
          obtain ⟨hw, hh, hcount, hbomb, hfc⟩ := ih (placeBombAt b x y) n b' hrest' heq
          refine ⟨hw.trans (placeBombAt_w b x y), hh.trans (placeBombAt_h b x y), ?_, ?_, ?_⟩
          · rw [hcount, countBombs_placeBombAt hxy hnew]
            omega
          · intro qx qy hb'
            rcases hbomb qx qy hb' with hpb | ⟨hnF, hin⟩
            · rw [placeBombAt_bomb b x y hxy] at hpb
              by_cases hq : qy = y ∧ qx = x
              · obtain ⟨h1, h2⟩ := hq
                subst h1; subst h2
                exact Or.inr ⟨hf, hxy⟩
              · rw [if_neg hq] at hpb
                exact Or.inl hpb
            · refine Or.inr ⟨hnF, ?_⟩
              rwa [inMap_congr (placeBombAt_w b x y) (placeBombAt_h b x y)] at hin
          · intro qy qx
            obtain ⟨hflag, hcov⟩ := hfc qy qx
            rw [hflag, hcov, placeBombAt_flag, placeBombAt_covered]
            exact ⟨rfl, rfl⟩

/-- `generateBombs` preserves the number invariant. -/
theorem genAux_numInv (F : List (Int × Int)) :
    ∀ (draws : List (Int × Int)) (b : GameMap) (need : Nat) (b' : GameMap),
    (∀ d ∈ draws, b.inMap d.1 d.2 = true) →
    numInv b →
    generateBombsAux F b need draws = some b' →
    numInv b' := by
  intro draws
  induction draws with
  | nil =>
    intro b need b' _ hinv heq
    cases need with
    | zero =>
      simp only [generateBombsAux, Option.some.injEq] at heq
      subst heq
      exact hinv
    | succ n => simp [generateBombsAux] at heq
  | cons d rest ih =>
    intro b need b' hdraws hinv heq
    obtain ⟨x, y⟩ := d
    cases need with
    | zero =>
      simp only [generateBombsAux, Option.some.injEq] at heq
      subst heq
      exact hinv
    | succ n =>
      have hxy : b.inMap x y = true := hdraws (x, y) (List.mem_cons_self _ _)
      have hrest : ∀ d ∈ rest, b.inMap d.1 d.2 = true :=
        fun d hd => hdraws d (List.mem_cons_of_mem _ hd)
      simp only [generateBombsAux] at heq
      by_cases hf : (x, y) ∈ F
      · rw [if_pos hf] at heq
        exact ih b (n + 1) b' hrest hinv heq
      · rw [if_neg hf] at heq
        by_cases hold : b.getCell x y 1 = some 1
        · rw [if_pos hold] at heq
          exact ih b (n + 1) b' hrest hinv heq
        · rw [if_neg hold] at heq
          have hnew : ¬ (b.grid y x).bomb = 1 := by
            intro hb
            exact hold (getCell_bomb_iff.mpr ⟨hxy, hb⟩)
          have hrest' : ∀ d ∈ rest, (placeBombAt b x y).inMap d.1 d.2 = true := by
            intro d hd
            rw [inMap_congr (placeBombAt_w b x y) (placeBombAt_h b x y)]
            exact hrest d hd
          exact ih (placeBombAt b x y) n b' hrest'
            (numInv_placeBombAt hxy hnew hinv) heq

/-- The eight `(dx, dy)` pairs of `_flood`'s neighbour loop, in source order
(`dx` outer, `dy` inner, `(0,0)` skipped by `continue`). -/
def floodOffsets : List (Int × Int) :=
  [(-1, -1), (-1, 0), (-1, 1), (0, -1), (0, 1), (1, -1), (1, 0), (1, 1)]

/-- Result of a `_flood` call: the board, the visited set, the list of cells
`_flood` was invoked on (ghost instrumentation for the termination claims),
and an `ok` flag that is `true` iff the artificial fuel bound was never hit. -/
structure FloodRes where
  board : GameMap
  vis : Finset (Int × Int)
  calls : List (Int × Int)
  ok : Bool

/-- `Map._flood(x, y, visited)`, fuel-indexed: uncover the cell, mark it
visited, stop if its number is nonzero, else recurse into each in-bounds
unvisited neighbour; board and visited set are threaded through the loop
exactly as the JS mutation does. -/
def floodAux : Nat → GameMap → Int → Int → Finset (Int × Int) → FloodRes
  | 0, b, _, _, vis => ⟨b, vis, [], false⟩
  | fuel + 1, b, x, y, vis =>
    let b1 := b.setCell x y 3 0
    let vis1 := insert (x, y) vis
    if b1.getCell x y 0 ≠ some 0 then ⟨b1, vis1, [(x, y)], true⟩
    else
      floodOffsets.foldl (fun r d =>
        if r.board.inMap (x + d.1) (y + d.2) = true ∧ (x + d.1, y + d.2) ∉ r.vis then
          let r2 := floodAux fuel r.board (x + d.1) (y + d.2) r.vis
          ⟨r2.board, r2.vis, r.calls ++ r2.calls, r.ok && r2.ok⟩
        else r) ⟨b1, vis1, [(x, y)], true⟩

/-- `Map.floodFill(startX, startY)`: record emptiness, uncover the first
cell, and if it was empty run `_flood` with a fresh visited set.  The fuel
`w*h` is an embedding artifact; `floodAux_ok` below proves it is never
exhausted, so the result agrees with the unbounded JS recursion. -/
def GameMap.floodFill (b : GameMap) (startX startY : Int) : FloodRes :=
  if b.getCell startX startY 0 = some 0 then
    floodAux (b.w * b.h) (b.setCell startX startY 3 0) startX startY ∅
  else ⟨b.setCell startX startY 3 0, ∅, [], true⟩

theorem foldl_preserve {α β : Type _} (P : β → Prop) (f : β → α → β)
    (l : List α) (init : β) (h0 : P init)
    (hstep : ∀ r a, a ∈ l → P r → P (f r a)) : P (l.foldl f init) := by
  induction l generalizing init with
  | nil => exact h0
  | cons a l ih =>
    rw [List.foldl_cons]
    exact ih (f init a) (hstep init a (List.mem_cons_self _ _) h0)
      (fun r d hd hr => hstep r d (List.mem_cons_of_mem _ hd) hr)

theorem floodAux_w (fuel : Nat) :
    ∀ (b : GameMap) (x y : Int) (vis : Finset (Int × Int)),
    (floodAux fuel b x y vis).board.w = b.w := by
  induction fuel with
  | zero => intro b x y vis; rfl
  | succ fuel ih =>
    intro b x y vis
    simp only [floodAux]
    split
    · exact b.setCell_w x y 3 0
    · refine foldl_preserve (fun (r : FloodRes) => r.board.w = b.w) _ _ _ (b.setCell_w x y 3 0) ?_
      intro r d _ hr
      dsimp only
      split
      · rw [ih]; exact hr
      · exact hr

theorem floodAux_h (fuel : Nat) :
    ∀ (b : GameMap) (x y : Int) (vis : Finset (Int × Int)),
    (floodAux fuel b x y vis).board.h = b.h := by
  induction fuel with
  | zero => intro b x y vis; rfl
  | succ fuel ih =>
    intro b x y vis
    simp only [floodAux]
    split
    · exact b.setCell_h x y 3 0
    · refine foldl_preserve (fun (r : FloodRes) => r.board.h = b.h) _ _ _ (b.setCell_h x y 3 0) ?_
      intro r d _ hr
      dsimp only
      split
      · rw [ih]; exact hr
      · exact hr

theorem setCell_uncover_grid (b : GameMap) (x y : Int) (qy qx : Int) :
    ((b.setCell x y 3 0).grid qy qx).num = (b.grid qy qx).num ∧
    ((b.setCell x y 3 0).grid qy qx).bomb = (b.grid qy qx).bomb ∧
    ((b.setCell x y 3 0).grid qy qx).flag = (b.grid qy qx).flag ∧
    (((b.setCell x y 3 0).grid qy qx).covered = (b.grid qy qx).covered ∨
      ((b.setCell x y 3 0).grid qy qx).covered = 0) := by
  rw [GameMap.setCell_grid]
  split
  · next hcond =>
    obtain ⟨_, h1, h2⟩ := hcond
    subst h1; subst h2
    rw [Cell.setSlot_three]
    exact ⟨rfl, rfl, rfl, Or.inr rfl⟩
  · exact ⟨rfl, rfl, rfl, Or.inl rfl⟩

/-- `_flood` never changes number, bomb or flag slots, and only ever drives
covered slots to `0`. -/
theorem floodAux_grid (fuel : Nat) :
    ∀ (b : GameMap) (x y : Int) (vis : Finset (Int × Int)) (qy qx : Int),
    ((floodAux fuel b x y vis).board.grid qy qx).num = (b.grid qy qx).num ∧
    ((floodAux fuel b x y vis).board.grid qy qx).bomb = (b.grid qy qx).bomb ∧
    ((floodAux fuel b x y vis).board.grid qy qx).flag = (b.grid qy qx).flag ∧
    (((floodAux fuel b x y vis).board.grid qy qx).covered = (b.grid qy qx).covered ∨
      ((floodAux fuel b x y vis).board.grid qy qx).covered = 0) := by
  induction fuel with
  | zero => intro b x y vis qy qx; exact ⟨rfl, rfl, rfl, Or.inl rfl⟩
  | succ fuel ih =>
    intro b x y vis qy qx
    simp only [floodAux]
    split
    · exact setCell_uncover_grid b x y qy qx
    · refine foldl_preserve (fun (r : FloodRes) =>
        (r.board.grid qy qx).num = (b.grid qy qx).num ∧
        (r.board.grid qy qx).bomb = (b.grid qy qx).bomb ∧
        (r.board.grid qy qx).flag = (b.grid qy qx).flag ∧
        ((r.board.grid qy qx).covered = (b.grid qy qx).covered ∨
          (r.board.grid qy qx).covered = 0)) _ _ _
        (setCell_uncover_grid b x y qy qx) ?_
      intro r d _ hr
      dsimp only
      split
      · obtain ⟨h1, h2, h3, h4⟩ := ih r.board (x + d.1) (y + d.2) r.vis qy qx
        obtain ⟨g1, g2, g3, g4⟩ := hr
        refine ⟨h1.trans g1, h2.trans g2, h3.trans g3, ?_⟩
        rcases h4 with h4 | h4
        · rw [h4]; exact g4
        · exact Or.inr h4
      · exact hr

/-- `_flood` bookkeeping: the cells it is invoked on are pairwise distinct,
none was previously visited, the final visited set is the entry set plus
exactly the invoked cells, and every invoked cell other than the entry cell
is in bounds. -/
theorem floodAux_calls (fuel : Nat) :
    ∀ (b : GameMap) (x y : Int) (vis : Finset (Int × Int)), (x, y) ∉ vis →
    (floodAux fuel b x y vis).calls.Nodup ∧
    (∀ c ∈ (floodAux fuel b x y vis).calls, c ∉ vis) ∧
    (floodAux fuel b x y vis).vis = vis ∪ (floodAux fuel b x y vis).calls.toFinset ∧
    (∀ c ∈ (floodAux fuel b x y vis).calls, c = (x, y) ∨ b.inMap c.1 c.2 = true) := by
  induction fuel with
  | zero =>
    intro b x y vis _
    simp [floodAux]
  | succ fuel ih =>
    intro b x y vis hxy
    have hsingle : insert (x, y) vis = vis ∪ [(x, y)].toFinset := by
      ext p
      simp only [Finset.mem_insert, Finset.mem_union, List.toFinset_cons,
        List.toFinset_nil, insert_emptyc_eq, Finset.mem_singleton]
      exact or_comm
    simp only [floodAux]
    split
    · refine ⟨List.nodup_singleton _, ?_, hsingle, ?_⟩
      · intro c hc
        rw [List.mem_singleton] at hc
        subst hc
        exact hxy
      · intro c hc
        rw [List.mem_singleton] at hc
        exact Or.inl hc
    · have hmain : ∀ res : FloodRes,
          (res.board.w = (b.setCell x y 3 0).w ∧ res.board.h = (b.setCell x y 3 0).h ∧
           res.calls.Nodup ∧ (∀ c ∈ res.calls, c ∉ vis) ∧
           res.vis = vis ∪ res.calls.toFinset ∧
           (∀ c ∈ res.calls, c = (x, y) ∨ b.inMap c.1 c.2 = true)) →
          (res.calls.Nodup ∧ (∀ c ∈ res.calls, c ∉ vis) ∧
           res.vis = vis ∪ res.calls.toFinset ∧
           (∀ c ∈ res.calls, c = (x, y) ∨ b.inMap c.1 c.2 = true)) :=
        fun res h => ⟨h.2.2.1, h.2.2.2.1, h.2.2.2.2.1, h.2.2.2.2.2⟩
      apply hmain
      refine foldl_preserve (fun (r : FloodRes) =>
          r.board.w = (b.setCell x y 3 0).w ∧ r.board.h = (b.setCell x y 3 0).h ∧
          r.calls.Nodup ∧ (∀ c ∈ r.calls, c ∉ vis) ∧
          r.vis = vis ∪ r.calls.toFinset ∧
          (∀ c ∈ r.calls, c = (x, y) ∨ b.inMap c.1 c.2 = true)) _ _ _
        ⟨rfl, rfl, List.nodup_singleton _, ?_, hsingle, ?_⟩ ?_
      · intro c hc
        rw [List.mem_singleton] at hc
        subst hc
        exact hxy
      · intro c hc
        rw [List.mem_singleton] at hc
        exact Or.inl hc
      · intro r d _ hr
        obtain ⟨hw, hh, hnd, hnv, hveq, hbnd⟩ := hr
        split
        · next hcond =>
          obtain ⟨hin, hnvis⟩ := hcond
          obtain ⟨nd2, nin2, veq2, bnd2⟩ :=
            ih r.board (x + d.1) (y + d.2) r.vis hnvis
          have hw2 : (floodAux fuel r.board (x + d.1) (y + d.2) r.vis).board.w =
              (b.setCell x y 3 0).w := by
            rw [floodAux_w]; exact hw
          have hh2 : (floodAux fuel r.board (x + d.1) (y + d.2) r.vis).board.h =
              (b.setCell x y 3 0).h := by
            rw [floodAux_h]; exact hh
          have hvis_sub : vis ⊆ r.vis := by
            rw [hveq]; exact Finset.subset_union_left
          have hcalls_sub : ∀ c ∈ r.calls, c ∈ r.vis := by
            intro c hc
            rw [hveq]
            exact Finset.mem_union_right _ (List.mem_toFinset.mpr hc)
          have hin_b : ∀ c ∈ (floodAux fuel r.board (x + d.1) (y + d.2) r.vis).calls,
              b.inMap c.1 c.2 = true := by
            intro c hc
            rcases bnd2 c hc with hceq | hcin
            · subst hceq
              rw [← inMap_congr (hw.trans (b.setCell_w x y 3 0))
                    (hh.trans (b.setCell_h x y 3 0))]
              exact hin
            · rwa [inMap_congr (hw.trans (b.setCell_w x y 3 0))
                    (hh.trans (b.setCell_h x y 3 0))] at hcin
          refine ⟨hw2, hh2, ?_, ?_, ?_, ?_⟩
          · refine List.Nodup.append hnd nd2 ?_
            intro c hc1 hc2
            exact nin2 c hc2 (hcalls_sub c hc1)
          · intro c hc
            rcases List.mem_append.mp hc with hc | hc
            · exact hnv c hc
            · intro hcv
              exact nin2 c hc (hvis_sub hcv)
          · rw [veq2, hveq, List.toFinset_append, Finset.union_assoc]
          · intro c hc
            rcases List.mem_append.mp hc with hc | hc
            · exact hbnd c hc
            · exact Or.inr (hin_b c hc)
        · exact ⟨hw, hh, hnd, hnv, hveq, hbnd⟩

/-- Fuel sufficiency for `_flood`: starting on an in-bounds unvisited cell
with fuel at least the number of in-bounds unvisited cells, the fuel bound
is never hit — the JS recursion terminates. -/
theorem floodAux_ok (fuel : Nat) :
    ∀ (b : GameMap) (x y : Int) (vis : Finset (Int × Int)),
    (x, y) ∈ inBoundsSet b → (x, y) ∉ vis →
    (inBoundsSet b \ vis).card ≤ fuel →
    (floodAux fuel b x y vis).ok = true := by
  induction fuel with
  | zero =>
    intro b x y vis hin hnv hcard
    exfalso
    have hmem : (x, y) ∈ inBoundsSet b \ vis := Finset.mem_sdiff.mpr ⟨hin, hnv⟩
    have hpos : 0 < (inBoundsSet b \ vis).card := Finset.card_pos.mpr ⟨_, hmem⟩
    omega
  | succ fuel ih =>
    intro b x y vis hin hnv hcard
    simp only [floodAux]
    split
    · rfl
    · have hmain : ∀ res : FloodRes,
          (res.ok = true ∧ insert (x, y) vis ⊆ res.vis ∧
           res.vis ⊆ vis ∪ inBoundsSet b ∧
           res.board.w = (b.setCell x y 3 0).w ∧
           res.board.h = (b.setCell x y 3 0).h) →
          res.ok = true := fun res h => h.1
      apply hmain
      refine foldl_preserve (fun (r : FloodRes) =>
          r.ok = true ∧ insert (x, y) vis ⊆ r.vis ∧
          r.vis ⊆ vis ∪ inBoundsSet b ∧
          r.board.w = (b.setCell x y 3 0).w ∧
          r.board.h = (b.setCell x y 3 0).h) _ _ _
        ⟨rfl, Finset.Subset.refl _, ?_, rfl, rfl⟩ ?_
      · intro p hp
        rcases Finset.mem_insert.mp hp with hp | hp
        · subst hp; exact Finset.mem_union_right _ hin
        · exact Finset.mem_union_left _ hp
      · intro r d _ hr
        obtain ⟨hok, hsub1, hsub2, hw, hh⟩ := hr
        split
        · next hcond =>
          obtain ⟨hinr, hnvr⟩ := hcond
          have hbs : inBoundsSet r.board = inBoundsSet b := by
            have h1 : inBoundsSet r.board = inBoundsSet (b.setCell x y 3 0) :=
              inBoundsSet_congr hw hh
            have h2 : inBoundsSet (b.setCell x y 3 0) = inBoundsSet b :=
              inBoundsSet_congr (b.setCell_w x y 3 0) (b.setCell_h x y 3 0)
            exact h1.trans h2
          have hin2 : (x + d.1, y + d.2) ∈ inBoundsSet r.board :=
            mem_inBoundsSet.mpr hinr
          have hxy_mem : (x, y) ∈ inBoundsSet b \ vis :=
            Finset.mem_sdiff.mpr ⟨hin, hnv⟩
          have hsub : inBoundsSet b \ r.vis ⊆ (inBoundsSet b \ vis).erase (x, y) := by
            intro p hp
            obtain ⟨hp1, hp2⟩ := Finset.mem_sdiff.mp hp
            refine Finset.mem_erase.mpr ⟨?_, Finset.mem_sdiff.mpr ⟨hp1, ?_⟩⟩
            · intro hpe
              subst hpe
              exact hp2 (hsub1 (Finset.mem_insert_self _ _))
            · intro hpv
              exact hp2 (hsub1 (Finset.mem_insert_of_mem hpv))
          have hcard2 : (inBoundsSet r.board \ r.vis).card ≤ fuel := by
            rw [hbs]
            have h1 := Finset.card_le_card hsub
            rw [Finset.card_erase_of_mem hxy_mem] at h1
            omega
          have hok2 := ih r.board (x + d.1) (y + d.2) r.vis hin2 hnvr hcard2
          obtain ⟨_, _, veq2, bnd2⟩ :=
            floodAux_calls fuel r.board (x + d.1) (y + d.2) r.vis hnvr
          refine ⟨?_, ?_, ?_, ?_, ?_⟩
          · rw [Bool.and_eq_true]; exact ⟨hok, hok2⟩
          · rw [veq2]
            exact hsub1.trans Finset.subset_union_left
          · rw [veq2]
            intro p hp
            rcases Finset.mem_union.mp hp with hp | hp
            · exact hsub2 hp
            · rw [List.mem_toFinset] at hp
              rcases bnd2 p hp with hpe | hpin
              · subst hpe
                exact Finset.mem_union_right _ (by rw [← hbs]; exact hin2)
              · refine Finset.mem_union_right _ ?_
                rw [← hbs]
                exact mem_inBoundsSet.mpr hpin
          · rw [floodAux_w]; exact hw
          · rw [floodAux_h]; exact hh
        · exact ⟨hok, hsub1, hsub2, hw, hh⟩

theorem numInv_congr {b b' : GameMap} (hw : b'.w = b.w) (hh : b'.h = b.h)
    (hnum : ∀ qy qx : Int, (b'.grid qy qx).num = (b.grid qy qx).num)
    (hbomb : ∀ qy qx : Int, (b'.grid qy qx).bomb = (b.grid qy qx).bomb)
    (h : numInv b) : numInv b' := by
  intro qx qy hq
  have hq' : b.inMap qx qy = true := by rwa [inMap_congr hw hh] at hq
  rw [hnum, h qx qy hq']
  unfold mines9
  rw [inBoundsSet_congr hw hh]
  congr 1
  apply Finset.filter_congr
  intro p _
  rw [hbomb p.2 p.1]

theorem mines9_zero_no_mine {b : GameMap} {x y : Int} (h : mines9 b x y = 0) :
    ∀ a c : Int, b.inMap a c = true → (a - x).natAbs ≤ 1 → (c - y).natAbs ≤ 1 →
    ¬ (b.grid c a).bomb = 1 := by
  intro a c hin h1 h2 hbomb
  rw [mines9, Finset.card_eq_zero, Finset.filter_eq_empty_iff] at h
  have hmem : (a, c) ∈ inBoundsSet b := mem_inBoundsSet.mpr hin
  exact h hmem ⟨h1, h2, hbomb⟩

theorem floodOffsets_near : ∀ d ∈ floodOffsets, d.1.natAbs ≤ 1 ∧ d.2.natAbs ≤ 1 := by
  decide

/-- Under the number invariant, `_flood` started on a non-mined cell never
changes the covered slot of any mined cell: flood-fill cannot uncover a
mine, because zero-numbered cells have no mine anywhere in their
9-neighborhood. -/
theorem floodAux_mines_covered (fuel : Nat) :
    ∀ (b : GameMap) (x y : Int) (vis : Finset (Int × Int)),
    numInv b → ¬ b.getCell x y 1 = some 1 →
    ∀ qy qx : Int, (b.grid qy qx).bomb = 1 →
    ((floodAux fuel b x y vis).board.grid qy qx).covered = (b.grid qy qx).covered := by
  induction fuel with
  | zero => intro b x y vis _ _ qy qx _; rfl
  | succ fuel ih =>
    intro b x y vis hinv hnm qy qx hq
    have hb1 : ∀ py px : Int, (b.grid py px).bomb = 1 →
        ((b.setCell x y 3 0).grid py px) = b.grid py px := by
      intro py px hbomb
      rw [GameMap.setCell_grid]
      split
      · next hcond =>
        obtain ⟨hin, h1, h2⟩ := hcond
        subst h1; subst h2
        exact absurd (getCell_bomb_iff.mpr ⟨hin, hbomb⟩) hnm
      · rfl
    simp only [floodAux]
    split
    · rw [hb1 qy qx hq]
    · next hz =>
      have hzero : (b.setCell x y 3 0).getCell x y 0 = some 0 := not_not.mp hz
      have hin_xy : b.inMap x y = true := by
        by_cases hxy : b.inMap x y = true
        · exact hxy
        · exfalso
          have hxy1 : ¬ (b.setCell x y 3 0).inMap x y = true := by
            rwa [inMap_congr (b.setCell_w x y 3 0) (b.setCell_h x y 3 0)]
          rw [getCell_out hxy1] at hzero
          exact Option.noConfusion hzero
      have hnum_xy : (b.grid y x).num = 0 := by
        have hin1 : (b.setCell x y 3 0).inMap x y = true := by
          rwa [inMap_congr (b.setCell_w x y 3 0) (b.setCell_h x y 3 0)]
        rw [getCell_in hin1, Cell.get_zero, Option.some.injEq] at hzero
        rw [← (setCell_uncover_grid b x y y x).1]
        exact hzero
      have hm9 : mines9 b x y = 0 := by
        rw [← hinv x y hin_xy]
        exact hnum_xy
      have hmain : ∀ res : FloodRes,
          (res.board.w = b.w ∧ res.board.h = b.h ∧
           (∀ py px : Int, (res.board.grid py px).num = (b.grid py px).num ∧
             (res.board.grid py px).bomb = (b.grid py px).bomb) ∧
           (∀ py px : Int, (b.grid py px).bomb = 1 →
             (res.board.grid py px).covered = (b.grid py px).covered)) →
          (res.board.grid qy qx).covered = (b.grid qy qx).covered :=
        fun res h => h.2.2.2 qy qx hq
      apply hmain
      refine foldl_preserve (fun (r : FloodRes) =>
          r.board.w = b.w ∧ r.board.h = b.h ∧
          (∀ py px : Int, (r.board.grid py px).num = (b.grid py px).num ∧
            (r.board.grid py px).bomb = (b.grid py px).bomb) ∧
          (∀ py px : Int, (b.grid py px).bomb = 1 →
            (r.board.grid py px).covered = (b.grid py px).covered)) _ _ _
        ⟨b.setCell_w x y 3 0, b.setCell_h x y 3 0, ?_, ?_⟩ ?_
      · intro py px
        exact ⟨(setCell_uncover_grid b x y py px).1,
          (setCell_uncover_grid b x y py px).2.1⟩
      · intro py px hbomb
        rw [hb1 py px hbomb]
      · intro r d hd hr
        obtain ⟨hw, hh, hslots, hcov⟩ := hr
        split
        · next hcond =>
          obtain ⟨hinr, _⟩ := hcond
          have hinv2 : numInv r.board :=
            numInv_congr hw hh (fun py px => (hslots py px).1)
              (fun py px => (hslots py px).2) hinv
          have hnm2 : ¬ r.board.getCell (x + d.1) (y + d.2) 1 = some 1 := by
            intro hmine
            obtain ⟨hin2, hbomb2⟩ := getCell_bomb_iff.mp hmine
            have hbomb_b : (b.grid (y + d.2) (x + d.1)).bomb = 1 := by
              rw [← (hslots (y + d.2) (x + d.1)).2]
              exact hbomb2
            have hin_b : b.inMap (x + d.1) (y + d.2) = true := by
              rwa [inMap_congr hw hh] at hin2
            obtain ⟨hd1, hd2⟩ := floodOffsets_near d hd
            exact mines9_zero_no_mine hm9 (x + d.1) (y + d.2) hin_b
              (by omega) (by omega) hbomb_b
          refine ⟨?_, ?_, ?_, ?_⟩
          · rw [floodAux_w]; exact hw
          · rw [floodAux_h]; exact hh
          · intro py px
            obtain ⟨h1, h2, _, _⟩ :=
              floodAux_grid fuel r.board (x + d.1) (y + d.2) r.vis py px
            exact ⟨h1.trans (hslots py px).1, h2.trans (hslots py px).2⟩
          · intro py px hbomb
            have hbomb_r : (r.board.grid py px).bomb = 1 := by
              rw [(hslots py px).2]
              exact hbomb
            have := ih r.board (x + d.1) (y + d.2) r.vis hinv2 hnm2 py px hbomb_r
            rw [this]
            exact hcov py px hbomb
        · exact ⟨hw, hh, hslots, hcov⟩

/-- `Map.revealBombs`: uncover every bomb (loop `y` outer, `x` inner). -/
def GameMap.revealBombs (b : GameMap) : GameMap :=
  ((List.range b.h).flatMap (fun y => (List.range b.w).map
      (fun x => ((x : Int), (y : Int))))).foldl
    (fun bb p => if bb.getCell p.1 p.2 1 = some 1 then bb.setCell p.1 p.2 3 0 else bb) b

/-- `Map.checkWin`: true iff no in-bounds cell is a covered non-bomb. -/
def GameMap.checkWin (b : GameMap) : Bool :=
  decide (∀ p ∈ inBoundsSet b,
    ¬((b.grid p.2 p.1).bomb = 0 ∧ (b.grid p.2 p.1).covered = 1))

/-- The `Game` controller state: `started`, `dead`, bomb and flag counters,
the board, and the status text written through `setStatus` (the one
observable the DOM keeps of win/lose results). -/
structure GameState where
  started : Bool
  dead : Bool
  bombs : Nat
  flags : Int
  board : GameMap
  status : String

/-- `Game.initialize(width, height, bombs)` (DOM grid construction elided). -/
def initGame (width height bombs : Nat) : GameState :=
  { started := false, dead := false, bombs := bombs, flags := (bombs : Int),
    board := mkMap width height, status := "" }

/-- `Game.start(startX, startY)`: mark started, reset the flag budget to the
bomb count, and place the bombs; `none` if `generateBombs` never finishes. -/
def Game.start (g : GameState) (startX startY : Int)
    (draws : List (Int × Int)) : Option GameState :=
  match g.board.generateBombs g.bombs startX startY draws with
  | some b' =>
    some { g with started := true, flags := (g.bombs : Int), board := b', status := "playing" }
  | none => none

/-- `Game.finish(result)`: clear `started`, reveal all bombs on a loss, and
record the result message (button disabling and AI-reset code are DOM-only). -/
def Game.finish (g : GameState) (result : String) : GameState :=
  if result = "lose" then
    { g with started := false, status := result, board := g.board.revealBombs }
  else { g with started := false, status := result }

/-- `Game.placeFlag`: refuse when the budget is below one, else decrement. -/
def Game.placeFlag (g : GameState) : GameState × Bool :=
  if g.flags < 1 then (g, false)
  else ({ g with flags := g.flags - 1 }, true)

/-- `Game.removeFlag`: unconditionally increment the budget. -/
def Game.removeFlag (g : GameState) : GameState × Bool :=
  ({ g with flags := g.flags + 1 }, true)

/-- `Map.cellRightClicked(x, y)` with the `Game` back-reference explicit:
place a flag on a covered unflagged cell when the budget allows, remove an
existing flag otherwise. -/
def cellRightClicked (g : GameState) (x y : Int) : GameState :=
  if g.board.getCell x y 3 = some 1 then
    if g.board.getCell x y 2 = some 0 then
      if (Game.placeFlag g).2 then
        { (Game.placeFlag g).1 with
            board := (Game.placeFlag g).1.board.setCell x y 2 1 }
      else (Game.placeFlag g).1
    else
      { (Game.removeFlag g).1 with
          board := (Game.removeFlag g).1.board.setCell x y 2 0 }
  else g

/-- The body of `Map.cellClicked` after the start check: flag check, bomb
check, then uncover/flood-fill and the win check; returns the updated game
and the JS boolean result. -/
def clickedBody (g : GameState) (x y : Int) : GameState × Bool :=
  if g.board.getCell x y 2 = some 1 then (g, false)
  else if g.board.getCell x y 1 = some 1 then
    (Game.finish { g with board := g.board.setCell x y 3 0 } "lose", false)
  else if g.board.getCell x y 3 = some 1 then
    if ((g.board.floodFill x y).board).checkWin then
      (Game.finish { g with board := (g.board.floodFill x y).board } "win", true)
    else ({ g with board := (g.board.floodFill x y).board }, true)
  else (g, false)

/-- `Map.cellClicked(x, y)`: if the game has not started, `Game.start` runs
first (mine placement), then the reveal logic runs on the started state.
The AI-turn guards at the top of the source are modelled in their default
player-turn configuration, where they all fall through.  `none` when a
required `Game.start` does not finish. -/
def cellClicked (g : GameState) (x y : Int) (draws : List (Int × Int)) :
    Option (GameState × Bool) :=
  if g.started then some (clickedBody g x y)
  else (Game.start g x y draws).map (fun g1 => clickedBody g1 x y)

/-- One external action against the engine. -/
inductive GAction where
  | click (x y : Int) (draws : List (Int × Int))
  | rightClick (x y : Int)

/-- Apply one action; `none` when a first reveal's mine placement does not
finish. -/
def applyAction (g : GameState) : GAction → Option GameState
  | GAction.click x y draws => (cellClicked g x y draws).map Prod.fst
  | GAction.rightClick x y => some (cellRightClicked g x y)

/-- Run a list of actions left to right. -/
def runActions : GameState → List GAction → Option GameState
  | g, [] => some g
  | g, a :: rest =>
    match applyAction g a with
    | some g' => runActions g' rest
    | none => none

-- Further helpers for the claim theorems.

theorem mines9_split (b : GameMap) (cx cy : Int) :
    mines9 b cx cy = mines8 b cx cy +
      (if b.getCell cx cy 1 = some 1 then 1 else 0) := by
  by_cases hc : b.getCell cx cy 1 = some 1
  · rw [if_pos hc]
    obtain ⟨hin, hbomb⟩ := getCell_bomb_iff.mp hc
    unfold mines9 mines8
    have hset : (inBoundsSet b).filter (fun p =>
          (p.1 - cx).natAbs ≤ 1 ∧ (p.2 - cy).natAbs ≤ 1 ∧ (b.grid p.2 p.1).bomb = 1) =
        insert (cx, cy) ((inBoundsSet b).filter (fun p =>
          p ≠ (cx, cy) ∧ (p.1 - cx).natAbs ≤ 1 ∧ (p.2 - cy).natAbs ≤ 1 ∧
            (b.grid p.2 p.1).bomb = 1)) := by
      ext p
      simp only [Finset.mem_filter, Finset.mem_insert]
      constructor
      · rintro ⟨hmem, h1, h2, h3⟩
        by_cases hpe : p = (cx, cy)
        · exact Or.inl hpe
        · exact Or.inr ⟨hmem, hpe, h1, h2, h3⟩
      · rintro (hpe | ⟨hmem, _, h1, h2, h3⟩)
        · subst hpe
          exact ⟨mem_inBoundsSet.mpr hin, by omega, by omega, hbomb⟩
        · exact ⟨hmem, h1, h2, h3⟩
    have hnm : (cx, cy) ∉ (inBoundsSet b).filter (fun p =>
        p ≠ (cx, cy) ∧ (p.1 - cx).natAbs ≤ 1 ∧ (p.2 - cy).natAbs ≤ 1 ∧
          (b.grid p.2 p.1).bomb = 1) := by
      intro hmem
      exact (Finset.mem_filter.mp hmem).2.1 rfl
    rw [hset, Finset.card_insert_of_not_mem hnm]
  · rw [if_neg hc, Nat.add_zero]
    unfold mines9 mines8
    congr 1
    ext p
    simp only [Finset.mem_filter]
    constructor
    · rintro ⟨hmem, h1, h2, h3⟩
      refine ⟨hmem, ?_, h1, h2, h3⟩
      intro hpe
      subst hpe
      exact hc (getCell_bomb_iff.mpr ⟨mem_inBoundsSet.mp hmem, h3⟩)
    · rintro ⟨hmem, _, h1, h2, h3⟩
      exact ⟨hmem, h1, h2, h3⟩

/-- `generateBombs` never touches covered slots (no in-bounds condition on
the draws is needed: every write of the loop targets slots 0 or 1). -/
theorem genAux_covered (F : List (Int × Int)) :
    ∀ (draws : List (Int × Int)) (b : GameMap) (need : Nat) (b' : GameMap),
    generateBombsAux F b need draws = some b' →
    ∀ qy qx : Int, (b'.grid qy qx).covered = (b.grid qy qx).covered := by
  intro draws
  induction draws with
  | nil =>
    intro b need b' heq
    cases need with
    | zero =>
      simp only [generateBombsAux, Option.some.injEq] at heq
      subst heq
      exact fun qy qx => rfl
    | succ n => simp [generateBombsAux] at heq
  | cons d rest ih =>
    intro b need b' heq
    obtain ⟨x, y⟩ := d
    cases need with
    | zero =>
      simp only [generateBombsAux, Option.some.injEq] at heq
      subst heq
      exact fun qy qx => rfl
    | succ n =>
      simp only [generateBombsAux] at heq
      by_cases hf : (x, y) ∈ F
      · rw [if_pos hf] at heq
        exact ih b (n + 1) b' heq
      · rw [if_neg hf] at heq
        by_cases hold : b.getCell x y 1 = some 1
        · rw [if_pos hold] at heq
          exact ih b (n + 1) b' heq
        · rw [if_neg hold] at heq
          intro qy qx
          rw [ih (placeBombAt b x y) n b' heq qy qx, placeBombAt_covered]

/-- Uncovering a non-mined cell leaves every mined cell untouched. -/
theorem setCell_uncover_mine_eq {b : GameMap} {x y : Int}
    (hnm : ¬ b.getCell x y 1 = some 1) :
    ∀ py px : Int, (b.grid py px).bomb = 1 →
    (b.setCell x y 3 0).grid py px = b.grid py px := by
  intro py px hbomb
  rw [GameMap.setCell_grid]
  split
  · next hcond =>
    obtain ⟨hin, h1, h2⟩ := hcond
    subst h1; subst h2
    exact absurd (getCell_bomb_iff.mpr ⟨hin, hbomb⟩) hnm
  · rfl

/-- Covered slot of the entry cell after a `_flood` call with nonzero fuel:
always `0` for an in-bounds entry (the first statement of `_flood`). -/
theorem floodAux_entry_covered (fuel : Nat) (b : GameMap) (x y : Int)
    (vis : Finset (Int × Int)) (hin : b.inMap x y = true) :
    ((floodAux (fuel + 1) b x y vis).board.grid y x).covered = 0 := by
  have hb1 : ((b.setCell x y 3 0).grid y x).covered = 0 := by
    rw [GameMap.setCell_grid, if_pos ⟨hin, rfl, rfl⟩, Cell.setSlot_three]
  simp only [floodAux]
  split
  · exact hb1
  · refine foldl_preserve (fun (r : FloodRes) => (r.board.grid y x).covered = 0)
      _ _ _ hb1 ?_
    intro r d _ hr
    split
    · obtain ⟨_, _, _, h4⟩ := floodAux_grid fuel r.board (x + d.1) (y + d.2) r.vis y x
      rcases h4 with h4 | h4
      · rw [h4]; exact hr
      · exact h4
    · exact hr

theorem setCell_flag_covered (b : GameMap) (x y : Int) (v : Nat) (qy qx : Int) :
    ((b.setCell x y 2 v).grid qy qx).covered = (b.grid qy qx).covered := by
  rw [GameMap.setCell_grid]
  split
  · next hcond =>
    obtain ⟨_, h1, h2⟩ := hcond
    subst h1; subst h2
    rw [Cell.setSlot_two]
  · rfl

theorem revealBombs_covered (b : GameMap) (qy qx : Int) :
    ((b.revealBombs).grid qy qx).covered = (b.grid qy qx).covered ∨
    ((b.revealBombs).grid qy qx).covered = 0 := by
  unfold GameMap.revealBombs
  refine foldl_preserve (fun (bb : GameMap) =>
      (bb.grid qy qx).covered = (b.grid qy qx).covered ∨ (bb.grid qy qx).covered = 0)
    _ _ _ (Or.inl rfl) ?_
  intro bb p _ hr
  split
  · rcases (setCell_uncover_grid bb p.1 p.2 qy qx).2.2.2 with h | h
    · rw [h]; exact hr
    · exact Or.inr h
  · exact hr

theorem floodFill_covered_zero (b : GameMap) (x y qy qx : Int)
    (h : (b.grid qy qx).covered = 0) :
    (((b.floodFill x y).board.grid qy qx)).covered = 0 := by
  have hset : (((b.setCell x y 3 0).grid qy qx)).covered = 0 := by
    rcases (setCell_uncover_grid b x y qy qx).2.2.2 with h5 | h5
    · rw [h5]; exact h
    · exact h5
  unfold GameMap.floodFill
  split
  · obtain ⟨_, _, _, h4⟩ := floodAux_grid (b.w * b.h) (b.setCell x y 3 0) x y ∅ qy qx
    rcases h4 with h4 | h4
    · rw [h4]; exact hset
    · exact h4
  · exact hset

theorem finish_covered_zero (g : GameState) (res : String) (qy qx : Int)
    (h : (g.board.grid qy qx).covered = 0) :
    ((Game.finish g res).board.grid qy qx).covered = 0 := by
  unfold Game.finish
  split
  · rcases revealBombs_covered g.board qy qx with h2 | h2
    · rw [h2]; exact h
    · exact h2
  · exact h

theorem start_covered_zero (g : GameState) (x y : Int)
    (draws : List (Int × Int)) (g1 : GameState)
    (hs : Game.start g x y draws = some g1) (qy qx : Int)
    (h : (g.board.grid qy qx).covered = 0) :
    (g1.board.grid qy qx).covered = 0 := by
  unfold Game.start at hs
  cases heq : g.board.generateBombs g.bombs x y draws with
  | none => rw [heq] at hs; exact Option.noConfusion hs
  | some b2 =>
    rw [heq] at hs
    simp only [Option.some.injEq] at hs
    subst hs
    unfold GameMap.generateBombs at heq
    rw [genAux_covered (forbiddenList g.board x y) draws g.board g.bombs b2 heq qy qx]
    exact h

theorem clickedBody_covered_zero (g : GameState) (x y : Int) (qy qx : Int)
    (h : (g.board.grid qy qx).covered = 0) :
    ((clickedBody g x y).1.board.grid qy qx).covered = 0 := by
  unfold clickedBody
  by_cases h2 : g.board.getCell x y 2 = some 1
  · rw [if_pos h2]; exact h
  · rw [if_neg h2]
    by_cases h1 : g.board.getCell x y 1 = some 1
    · rw [if_pos h1]
      apply finish_covered_zero
      rcases (setCell_uncover_grid g.board x y qy qx).2.2.2 with h5 | h5
      · rw [h5]; exact h
      · exact h5
    · rw [if_neg h1]
      by_cases h3 : g.board.getCell x y 3 = some 1
      · rw [if_pos h3]
        by_cases hwin : ((g.board.floodFill x y).board).checkWin = true
        · rw [if_pos hwin]
          apply finish_covered_zero
          exact floodFill_covered_zero g.board x y qy qx h
        · rw [if_neg hwin]
          exact floodFill_covered_zero g.board x y qy qx h
      · rw [if_neg h3]; exact h

theorem cellRightClicked_covered_zero (g : GameState) (x y : Int) (qy qx : Int)
    (h : (g.board.grid qy qx).covered = 0) :
    ((cellRightClicked g x y).board.grid qy qx).covered = 0 := by
  unfold cellRightClicked
  by_cases h3 : g.board.getCell x y 3 = some 1
  · rw [if_pos h3]
    by_cases h2 : g.board.getCell x y 2 = some 0
    · rw [if_pos h2]
      by_cases hp : (Game.placeFlag g).2 = true
      · rw [if_pos hp]
        rw [setCell_flag_covered]
        unfold Game.placeFlag
        split
        · exact h
        · exact h
      · rw [if_neg hp]
        unfold Game.placeFlag
        split
        · exact h
        · exact h
    · rw [if_neg h2]
      rw [setCell_flag_covered]
      exact h
  · rw [if_neg h3]; exact h

theorem applyAction_covered_zero (g : GameState) (a : GAction) (g' : GameState)
    (ha : applyAction g a = some g') (qy qx : Int)
    (h : (g.board.grid qy qx).covered = 0) :
    (g'.board.grid qy qx).covered = 0 := by
  cases a with
  | rightClick x y =>
    simp only [applyAction, Option.some.injEq] at ha
    subst ha
    exact cellRightClicked_covered_zero g x y qy qx h
  | click x y draws =>
    simp only [applyAction] at ha
    unfold cellClicked at ha
    by_cases hst : g.started = true
    · rw [if_pos hst] at ha
      simp only [Option.map_some', Option.some.injEq] at ha
      subst ha
      exact clickedBody_covered_zero g x y qy qx h
    · rw [if_neg hst] at ha
      cases hs : Game.start g x y draws with
      | none => rw [hs] at ha; simp at ha
      | some g1 =>
        rw [hs] at ha
        simp only [Option.map_some', Option.some.injEq] at ha
        subst ha
        exact clickedBody_covered_zero g1 x y qy qx
          (start_covered_zero g x y draws g1 hs qy qx h)

theorem runActions_covered_zero :
    ∀ (acts : List GAction) (g g' : GameState),
    runActions g acts = some g' →
    ∀ qy qx : Int, (g.board.grid qy qx).covered = 0 →
      (g'.board.grid qy qx).covered = 0 := by
  intro acts
  induction acts with
  | nil =>
    intro g g' heq qy qx h
    simp only [runActions, Option.some.injEq] at heq
    subst heq
    exact h
  | cons a rest ih =>
    intro g g' heq qy qx h
    simp only [runActions] at heq
    cases ha : applyAction g a with
    | none => rw [ha] at heq; exact Option.noConfusion heq
    | some g1 =>
      rw [ha] at heq
      exact ih g1 g' heq qy qx (applyAction_covered_zero g a g1 ha qy qx h)

-- Claim theorems.

/-- **C1.** For every board holding no bombs and every bomb count, if
`generateBombs(bombCount, startX, startY)` completes (here: the stream of
in-bounds random draws suffices), exactly `bombCount` cells have the bomb
attribute set, and none of those cells lies in the 8-neighborhood-inclusive
of `(startX, startY)` clipped to board bounds. -/
theorem c1_generateBombs_count_and_safe_zone
    (b : GameMap) (bombCount : Nat) (startX startY : Int)
    (draws : List (Int × Int)) (b' : GameMap)
    (hclean : ∀ qy qx : Int, ¬ (b.grid qy qx).bomb = 1)
    (hdraws : ∀ d ∈ draws, b.inMap d.1 d.2 = true)
    (hdone : b.generateBombs bombCount startX startY draws = some b') :
    countBombs b' = bombCount ∧
    (∀ x y : Int, b'.getCell x y 1 = some 1 →
      ¬((x - startX).natAbs ≤ 1 ∧ (y - startY).natAbs ≤ 1)) := by
  unfold GameMap.generateBombs at hdone
  obtain ⟨hw, hh, hcount, hbomb, _⟩ :=
    genAux_spec (forbiddenList b startX startY) draws b bombCount b' hdraws hdone
  constructor
  · rw [hcount]
    have h0 : countBombs b = 0 := by
      rw [countBombs, Finset.card_eq_zero, Finset.filter_eq_empty_iff]
      intro p _ hp
      exact hclean p.2 p.1 hp
    omega
  · intro x y hxy
    obtain ⟨hin, hb⟩ := getCell_bomb_iff.mp hxy
    have hin_b : b.inMap x y = true := by rwa [inMap_congr hw hh] at hin
    rcases hbomb x y hb with hold | ⟨hnF, _⟩
    · exact absurd hold (hclean y x)
    · rintro ⟨h1, h2⟩
      exact hnF (mem_forbiddenList.mpr ⟨hin_b, h1, h2⟩)

theorem option_eq_some_getD {A : Type _} (o : Option A) (d : A)
    (h : o.isSome = true) : o = some (o.getD d) := by
  cases o with
  | none => exact absurd h (by simp)
  | some a => rfl

/-- Witness for C1 at a concrete instance: a 4×4 board, two bombs drawn at
`(3, 3)` and `(1, 3)` after a first click at `(0, 0)`. -/
theorem c1_witness :
    countBombs (((mkMap 4 4).generateBombs 2 0 0 [(3, 3), (1, 3)]).getD (mkMap 0 0)) = 2 ∧
    (∀ x y : Int,
      ((((mkMap 4 4).generateBombs 2 0 0 [(3, 3), (1, 3)]).getD (mkMap 0 0)).getCell x y 1 =
        some 1) →
      ¬((x - 0).natAbs ≤ 1 ∧ (y - 0).natAbs ≤ 1)) :=
  c1_generateBombs_count_and_safe_zone (mkMap 4 4) 2 0 0 [(3, 3), (1, 3)]
    (((mkMap 4 4).generateBombs 2 0 0 [(3, 3), (1, 3)]).getD (mkMap 0 0))
    (fun qy qx => Nat.zero_ne_one) (by decide)
    (option_eq_some_getD _ _ (by decide))

/-- The board of the C2 analysis: 4×4, one bomb drawn at `(3, 3)` after a
first click at `(0, 0)`. -/
def c2Board : GameMap := ((mkMap 4 4).generateBombs 1 0 0 [(3, 3)]).getD (mkMap 0 0)

/-- **C2 (counterexample).** After a completed mine placement, the mined
cell `(3, 3)` carries visual number `1` although its 8-neighborhood
(excluding itself) holds no mine: the placement loop also increments the
bomb's own cell, so the claim's quantification over mined cells fails. -/
theorem c2_counterexample :
    ((mkMap 4 4).generateBombs 1 0 0 [(3, 3)]).isSome = true ∧
    c2Board.getCell 3 3 1 = some 1 ∧
    (c2Board.grid 3 3).num = 1 ∧
    mines8 c2Board 3 3 = 0 := by
  refine ⟨by decide, by decide, by decide, ?_⟩
  decide

/-- **C2 (amended).** After mine placement on a fresh board, every in-bounds
cell's `adjacentMineCount` equals the number of mined cells in its
9-neighborhood (the 8 surrounding cells plus the cell itself, clipped to
bounds); equivalently, it equals the 8-neighborhood count for non-mined
cells and exceeds it by exactly one for mined cells. -/
theorem c2_amended_adjacency
    (b : GameMap) (bombCount : Nat) (startX startY : Int)
    (draws : List (Int × Int)) (b' : GameMap)
    (hfresh : ∀ qy qx : Int, (b.grid qy qx).num = 0 ∧ ¬ (b.grid qy qx).bomb = 1)
    (hdraws : ∀ d ∈ draws, b.inMap d.1 d.2 = true)
    (hdone : b.generateBombs bombCount startX startY draws = some b') :
    ∀ cx cy : Int, b'.inMap cx cy = true →
      (b'.grid cy cx).num = mines9 b' cx cy ∧
      mines9 b' cx cy = mines8 b' cx cy +
        (if b'.getCell cx cy 1 = some 1 then 1 else 0) := by
  unfold GameMap.generateBombs at hdone
  have hinv : numInv b' :=
    genAux_numInv (forbiddenList b startX startY) draws b bombCount b' hdraws
      (numInv_of_no_bombs hfresh) hdone
  intro cx cy hin
  exact ⟨hinv cx cy hin, mines9_split b' cx cy⟩

/-- Witness for the amended C2 at the mined cell `(3, 3)` of the concrete
one-bomb 4×4 instance. -/
theorem c2_amended_witness :
    c2Board.inMap 3 3 = true ∧
    ((c2Board.grid 3 3).num = mines9 c2Board 3 3 ∧
      mines9 c2Board 3 3 = mines8 c2Board 3 3 +
        (if c2Board.getCell 3 3 1 = some 1 then 1 else 0)) :=
  ⟨by decide, c2_amended_adjacency (mkMap 4 4) 1 0 0 [(3, 3)] c2Board
    (fun qy qx => ⟨rfl, Nat.zero_ne_one⟩) (by decide)
    (option_eq_some_getD _ _ (by decide)) 3 3 (by decide)⟩

/-- **C3.** For every board state and in-bounds starting cell, the
flood-fill terminates — the fuel bound `w*h` built into the embedding is
never hit (`ok = true`) — and `_flood` is invoked on pairwise-distinct
cells (`Nodup`), so each cell is processed at most once; the number of
recursive `_flood` calls is bounded by `width*height`. -/
theorem c3_floodFill_terminates (b : GameMap) (x y : Int)
    (hin : b.inMap x y = true) :
    (b.floodFill x y).ok = true ∧
    (b.floodFill x y).calls.Nodup ∧
    (b.floodFill x y).calls.length ≤ b.w * b.h := by
  have hin1 : (b.setCell x y 3 0).inMap x y = true := by
    rwa [inMap_congr (b.setCell_w x y 3 0) (b.setCell_h x y 3 0)]
  have hmem1 : (x, y) ∈ inBoundsSet (b.setCell x y 3 0) := mem_inBoundsSet.mpr hin1
  unfold GameMap.floodFill
  split
  · have hcard : (inBoundsSet (b.setCell x y 3 0) \ ∅).card ≤ b.w * b.h := by
      rw [Finset.sdiff_empty, card_inBoundsSet, b.setCell_w x y 3 0,
        b.setCell_h x y 3 0]
    have hok := floodAux_ok (b.w * b.h) (b.setCell x y 3 0) x y ∅ hmem1
      (Finset.not_mem_empty _) hcard
    obtain ⟨hnd, _, _, hbnd⟩ :=
      floodAux_calls (b.w * b.h) (b.setCell x y 3 0) x y ∅ (Finset.not_mem_empty _)
    refine ⟨hok, hnd, ?_⟩
    have hsub : (floodAux (b.w * b.h) (b.setCell x y 3 0) x y ∅).calls.toFinset ⊆
        inBoundsSet (b.setCell x y 3 0) := by
      intro c hc
      rw [List.mem_toFinset] at hc
      rcases hbnd c hc with hce | hcin
      · subst hce; exact hmem1
      · exact mem_inBoundsSet.mpr hcin
    have hlen := List.toFinset_card_of_nodup hnd
    have hle := Finset.card_le_card hsub
    rw [hlen] at hle
    rw [card_inBoundsSet, b.setCell_w x y 3 0, b.setCell_h x y 3 0] at hle
    exact hle
  · exact ⟨rfl, List.nodup_nil, Nat.zero_le _⟩

/-- Witness for C3 on a concrete 2×2 all-empty board starting at `(0, 0)`:
flood fill visits all four cells exactly once. -/
theorem c3_witness :
    ((mkMap 2 2).floodFill 0 0).ok = true ∧
    ((mkMap 2 2).floodFill 0 0).calls.Nodup ∧
    ((mkMap 2 2).floodFill 0 0).calls.length ≤ (mkMap 2 2).w * (mkMap 2 2).h :=
  c3_floodFill_terminates (mkMap 2 2) 0 0 (by decide)

/-- The C4 scenario, a lost 4×1 match: first reveal at `(0, 0)` draws the
single bomb at `(2, 0)`, then revealing `(2, 0)` hits the mine. -/
def c4Lost : GameState :=
  (runActions (initGame 4 1 1)
    [GAction.click 0 0 [(2, 0)], GAction.click 2 0 []]).getD (initGame 0 0 0)

/-- The C4 post-terminal reveal at `(3, 0)`, drawing a fresh bomb at `(0, 0)`. -/
def c4After : GameState :=
  ((cellClicked c4Lost 3 0 [(0, 0)]).map Prod.fst).getD (initGame 0 0 0)

/-- **C4 (counterexample).** `c4Lost` is terminal (lost), yet the next
`cellClicked` is not rejected: it uncovers cell `(3, 0)`, places a second
mine (at `(0, 0)`), and restarts — the match even ends won. -/
theorem c4_counterexample :
    c4Lost.status = "lose" ∧ c4Lost.started = false ∧
    c4Lost.board.getCell 3 0 3 = some 1 ∧
    c4Lost.board.getCell 0 0 1 = some 0 ∧
    countBombs c4Lost.board = 1 ∧
    (cellClicked c4Lost 3 0 [(0, 0)]).isSome = true ∧
    c4After.board.getCell 3 0 3 = some 0 ∧
    c4After.board.getCell 0 0 1 = some 1 ∧
    countBombs c4After.board = 2 ∧
    c4After.status = "win" := by
  refine ⟨by decide, by decide, by decide, by decide, by decide, by decide,
    by decide, by decide, by decide, by decide⟩

/-- **C4 (amended).** Once a match is terminal, `Game.finish` has set
`started := false`, and the engine itself does not reject the next reveal:
`cellClicked` treats it exactly as a first reveal — `Game.start` runs,
placing a fresh batch of mines and setting `started := true`, and the
normal reveal logic proceeds on that restarted state.  Rejection of
post-terminal input exists only in the presentation layer, where `finish`
disables every grid button. -/
theorem c4_amended_terminal_restart (g : GameState) (x y : Int)
    (draws : List (Int × Int)) (g1 : GameState)
    (hterm : g.started = false)
    (hstart : Game.start g x y draws = some g1) :
    cellClicked g x y draws = some (clickedBody g1 x y) ∧ g1.started = true := by
  constructor
  · unfold cellClicked
    rw [hterm]
    simp only [Bool.false_eq_true, if_false, hstart, Option.map_some']
  · unfold Game.start at hstart
    cases heq : g.board.generateBombs g.bombs x y draws with
    | none => rw [heq] at hstart; exact Option.noConfusion hstart
    | some b2 =>
      rw [heq] at hstart
      simp only [Option.some.injEq] at hstart
      subst hstart
      rfl

/-- The started state reached by the post-terminal reveal of the C4
scenario. -/
def c4Started : GameState := (Game.start c4Lost 3 0 [(0, 0)]).getD (initGame 0 0 0)

/-- Witness for the amended C4 at the concrete lost 4×1 match. -/
theorem c4_amended_witness :
    c4Lost.started = false ∧
    (cellClicked c4Lost 3 0 [(0, 0)] = some (clickedBody c4Started 3 0) ∧
      c4Started.started = true) :=
  ⟨by decide, c4_amended_terminal_restart c4Lost 3 0 [(0, 0)] c4Started (by decide)
    (option_eq_some_getD _ _ (by decide))⟩

/-- The C5 failing run: 4×1 board with one bomb; flag `(3, 0)` before the
first reveal (budget 1 → 0), reveal `(0, 0)` (`Game.start` resets the
budget to the bomb count while the flag stays on the board), then remove
the pre-start flag (`removeFlag` increments unconditionally). -/
def c5Final : GameState :=
  (runActions (initGame 4 1 1)
    [GAction.rightClick 3 0, GAction.click 0 0 [(2, 0)],
     GAction.rightClick 3 0]).getD (initGame 0 0 0)

/-- **C5.** Evaluation of the failing flag-budget run: the sequence
completes and leaves `flags = 2` although the match's original mine count
is `1` — the budget exceeds the bound the spec states, because
`Game.start` resets `flags` without accounting for flags already placed. -/
theorem c5_flag_budget_exceeded :
    (runActions (initGame 4 1 1)
      [GAction.rightClick 3 0, GAction.click 0 0 [(2, 0)],
       GAction.rightClick 3 0]).isSome = true ∧
    c5Final.bombs = 1 ∧ c5Final.flags = 2 := by
  refine ⟨by decide, by decide, by decide⟩

/-- The C6 scenario: flag cell `(3, 0)` of a fresh 4×1 match (possible
before the first reveal), then left-click the flagged cell as the very
first reveal action. -/
def c6Flagged : GameState := cellRightClicked (initGame 4 1 1) 3 0

/-- Result of that first reveal on the flagged cell, drawing the bomb at
`(0, 0)`. -/
def c6Result : GameState × Bool :=
  (cellClicked c6Flagged 3 0 [(0, 0)]).getD (initGame 0 0 0, true)

/-- **C6 (counterexample).** A reveal on a flagged cell as the first action
of the match returns `false` (blocked) but does NOT leave the state
unchanged: `cellClicked` runs `Game.start` before its flag check, so the
match starts and mines are placed (bomb and count attributes change). -/
theorem c6_counterexample :
    c6Flagged.board.getCell 3 0 2 = some 1 ∧
    c6Flagged.started = false ∧
    c6Flagged.board.getCell 0 0 1 = some 0 ∧
    (cellClicked c6Flagged 3 0 [(0, 0)]).isSome = true ∧
    c6Result.2 = false ∧
    c6Result.1.started = true ∧
    c6Result.1.board.getCell 0 0 1 = some 1 ∧
    c6Result.1.board.getCell 0 0 0 = some 1 := by
  refine ⟨by decide, by decide, by decide, by decide, by decide, by decide,
    by decide, by decide⟩

/-- **C6 (amended).** On a started match, a reveal action on a flagged
in-bounds cell is blocked with no state change at all: `cellClicked`
returns the input state unchanged together with `false`.  (On a match that
has not yet started, the same action first triggers `Game.start`, which
places the mines, before the flag check blocks the reveal.) -/
theorem c6_amended_flag_blocks (g : GameState) (x y : Int)
    (draws : List (Int × Int))
    (hstarted : g.started = true)
    (hflag : g.board.getCell x y 2 = some 1) :
    cellClicked g x y draws = some (g, false) := by
  unfold cellClicked
  rw [hstarted]
  simp only [if_true]
  unfold clickedBody
  rw [if_pos hflag]

/-- The started 4×1 match with a flag on `(3, 0)` used as the C6 witness. -/
def c6Started : GameState :=
  (runActions (initGame 4 1 1)
    [GAction.click 0 0 [(2, 0)], GAction.rightClick 3 0]).getD (initGame 0 0 0)

/-- Witness for the amended C6: on the started match, revealing the flagged
`(3, 0)` is exactly a no-op returning `false`. -/
theorem c6_amended_witness :
    c6Started.started = true ∧
    cellClicked c6Started 3 0 [] = some (c6Started, false) :=
  ⟨by decide, c6_amended_flag_blocks c6Started 3 0 [] (by decide) (by decide)⟩

/-- **C7.** Flood fill does not check or respect flags: `_flood` invoked on
an in-bounds flagged covered cell (with any recursion budget remaining)
sets its covered attribute to 0 while leaving the flag attribute set, so
flags do not block flood propagation.  (The covered hypothesis mirrors the
claim's wording; the conclusion holds regardless of it.) -/
theorem c7_flood_ignores_flags (fuel : Nat) (b : GameMap) (x y : Int)
    (vis : Finset (Int × Int))
    (hin : b.inMap x y = true)
    (hflag : (b.grid y x).flag = 1)
    (_hcov : (b.grid y x).covered = 1) :
    ((floodAux (fuel + 1) b x y vis).board.grid y x).covered = 0 ∧
    ((floodAux (fuel + 1) b x y vis).board.grid y x).flag = 1 := by
  refine ⟨floodAux_entry_covered fuel b x y vis hin, ?_⟩
  rw [(floodAux_grid (fuel + 1) b x y vis y x).2.2.1]
  exact hflag

set_option maxRecDepth 8000 in
/-- Witness for C7: a 3×3 board with a flag on the covered cell `(1, 1)` —
`_flood` on it uncovers it and keeps the flag. -/
theorem c7_witness :
    ((floodAux 9 ((mkMap 3 3).setCell 1 1 2 1) 1 1 ∅).board.grid 1 1).covered = 0 ∧
    ((floodAux 9 ((mkMap 3 3).setCell 1 1 2 1) 1 1 ∅).board.grid 1 1).flag = 1 :=
  c7_flood_ignores_flags 8 ((mkMap 3 3).setCell 1 1 2 1) 1 1 ∅
    (by decide) (by decide) (by decide)

/-- **C8.** Reveal is monotonic and one-way: every cell of a freshly
constructed board starts covered, and no engine operation — mine placement,
flood fill, `revealBombs`, or any reachable sequence of `cellClicked` /
`cellRightClicked` actions — ever sets an uncovered cell (covered = 0) back
to covered. -/
theorem c8_reveal_monotonic :
    (∀ (w h : Nat) (qy qx : Int), ((mkMap w h).grid qy qx).covered = 1) ∧
    (∀ (F draws : List (Int × Int)) (b : GameMap) (need : Nat) (b' : GameMap),
      generateBombsAux F b need draws = some b' →
      ∀ qy qx : Int, (b'.grid qy qx).covered = (b.grid qy qx).covered) ∧
    (∀ (b : GameMap) (x y qy qx : Int), (b.grid qy qx).covered = 0 →
      (((b.floodFill x y).board.grid qy qx)).covered = 0) ∧
    (∀ (b : GameMap) (qy qx : Int), (b.grid qy qx).covered = 0 →
      ((b.revealBombs).grid qy qx).covered = 0) ∧
    (∀ (acts : List GAction) (g g' : GameState),
      runActions g acts = some g' →
      ∀ qy qx : Int, (g.board.grid qy qx).covered = 0 →
        (g'.board.grid qy qx).covered = 0) := by
  refine ⟨fun w h qy qx => rfl,
    fun F draws b need b' heq qy qx => genAux_covered F draws b need b' heq qy qx,
    floodFill_covered_zero, ?_, runActions_covered_zero⟩
  intro b qy qx h
  rcases revealBombs_covered b qy qx with h2 | h2
  · rw [h2]; exact h
  · exact h2

/-- A concrete partially revealed 2×2 state used as the C8 witness. -/
def c8W : GameState :=
  { started := true, dead := false, bombs := 0, flags := 0,
    board := (mkMap 2 2).setCell 0 0 3 0, status := "playing" }

/-- The C8 witness state after one further flag action. -/
def c8WRes : GameState :=
  (runActions c8W [GAction.rightClick 1 1]).getD (initGame 0 0 0)

/-- Witness for C8: cell `(0, 0)` starts covered on a fresh board, and once
uncovered it stays uncovered across a further engine action. -/
theorem c8_witness :
    ((mkMap 2 2).grid 0 0).covered = 1 ∧
    (c8W.board.grid 0 0).covered = 0 ∧
    (c8WRes.board.grid 0 0).covered = 0 :=
  ⟨c8_reveal_monotonic.1 2 2 0 0, by decide,
    c8_reveal_monotonic.2.2.2.2 [GAction.rightClick 1 1] c8W c8WRes
      (option_eq_some_getD _ _ (by decide)) 0 0 (by decide)⟩

/-- The C9 out-of-bounds first reveal on a fresh 3×3 match. -/
def c9Res : GameState × Bool :=
  (cellClicked (initGame 3 3 1) (-1) (-1) [(1, 1)]).getD (initGame 0 0 0, true)

/-- **C9 (counterexample).** An out-of-bounds reveal on a match that has
not yet started is not a no-op: `cellClicked` runs `Game.start` before any
bounds check, so the match starts and a mine is placed (the forbidden zone
around the out-of-bounds click clips to almost nothing). -/
theorem c9_counterexample :
    (initGame 3 3 1).board.inMap (-1) (-1) = false ∧
    (initGame 3 3 1).started = false ∧
    (cellClicked (initGame 3 3 1) (-1) (-1) [(1, 1)]).isSome = true ∧
    c9Res.1.started = true ∧
    c9Res.1.board.getCell 1 1 1 = some 1 := by
  refine ⟨by decide, by decide, by decide, by decide, by decide⟩

/-- **C9 (amended).** Out-of-bounds coordinates are silent no-ops for
`setCell` (the board is returned unchanged), for `getCell` (no value), and
for `cellClicked` on a STARTED match (exactly no state change and `false`
returned); on a not-yet-started match an out-of-bounds reveal still
triggers `Game.start` and thus mine placement. -/
theorem c9_amended_oob (b : GameMap) (x y : Int) (i v : Nat)
    (g : GameState) (draws : List (Int × Int))
    (hoob : ¬ b.inMap x y = true)
    (hoob2 : ¬ g.board.inMap x y = true)
    (hstarted : g.started = true) :
    b.setCell x y i v = b ∧
    b.getCell x y i = none ∧
    cellClicked g x y draws = some (g, false) := by
  refine ⟨?_, getCell_out hoob i, ?_⟩
  · unfold GameMap.setCell
    rw [if_neg hoob]
  · unfold cellClicked
    rw [hstarted]
    simp only [if_true]
    unfold clickedBody
    simp only [getCell_out hoob2]
    simp

/-- A started 2×2 match used for the C9 witness. -/
def c9G : GameState :=
  { started := true, dead := false, bombs := 0, flags := 0,
    board := mkMap 2 2, status := "playing" }

/-- Witness for the amended C9 at coordinate `(5, 0)` of a 2×2 board. -/
theorem c9_amended_witness :
    (mkMap 2 2).setCell 5 0 3 0 = mkMap 2 2 ∧
    (mkMap 2 2).getCell 5 0 3 = none ∧
    cellClicked c9G 5 0 [] = some (c9G, false) :=
  c9_amended_oob (mkMap 2 2) 5 0 3 0 c9G [] (by decide) (by decide) (by decide)

theorem finish_status (g : GameState) (res : String) :
    (Game.finish g res).status = res := by
  unfold Game.finish
  split <;> rfl

/-- **C10.** On a board produced by `generateBombs` from a fresh board:
every mined cell has a nonzero visual number (placement bumps the bomb's
own cell), so flood fill — which only expands through zero-numbered cells —
started at any non-mined cell never changes the covered slot of any mined
cell; and `cellClicked` can newly produce the lose outcome only when the
clicked cell itself is mined. -/
theorem c10_loss_only_by_mine_click
    (b : GameMap) (bombCount : Nat) (sx sy : Int)
    (draws : List (Int × Int)) (b' : GameMap)
    (hfresh : ∀ qy qx : Int, (b.grid qy qx).num = 0 ∧ ¬ (b.grid qy qx).bomb = 1)
    (hdraws : ∀ d ∈ draws, b.inMap d.1 d.2 = true)
    (hdone : b.generateBombs bombCount sx sy draws = some b') :
    (∀ x y : Int, b'.getCell x y 1 = some 1 → 1 ≤ (b'.grid y x).num) ∧
    (∀ x y : Int, ¬ b'.getCell x y 1 = some 1 →
      ∀ py px : Int, (b'.grid py px).bomb = 1 →
        (((b'.floodFill x y).board.grid py px)).covered = (b'.grid py px).covered) ∧
    (∀ (g : GameState) (x y : Int) (draws2 : List (Int × Int))
       (gr : GameState × Bool),
      g.started = true → ¬ g.board.getCell x y 1 = some 1 →
      cellClicked g x y draws2 = some gr →
      gr.1.status = "lose" → g.status = "lose") := by
  unfold GameMap.generateBombs at hdone
  have hinv : numInv b' :=
    genAux_numInv (forbiddenList b sx sy) draws b bombCount b' hdraws
      (numInv_of_no_bombs hfresh) hdone
  refine ⟨?_, ?_, ?_⟩
  · intro x y hxy
    obtain ⟨hin, hb⟩ := getCell_bomb_iff.mp hxy
    rw [hinv x y hin]
    have hmem : (x, y) ∈ (inBoundsSet b').filter (fun p =>
        (p.1 - x).natAbs ≤ 1 ∧ (p.2 - y).natAbs ≤ 1 ∧
          (b'.grid p.2 p.1).bomb = 1) := by
      rw [Finset.mem_filter]
      exact ⟨mem_inBoundsSet.mpr hin, by omega, by omega, hb⟩
    have hpos : 0 < mines9 b' x y := by
      rw [mines9]
      exact Finset.card_pos.mpr ⟨_, hmem⟩
    omega
  · intro x y hnm py px hbomb
    have hb1 := setCell_uncover_mine_eq hnm
    unfold GameMap.floodFill
    split
    · have hinv1 : numInv (b'.setCell x y 3 0) :=
        numInv_congr (b'.setCell_w x y 3 0) (b'.setCell_h x y 3 0)
          (fun qy qx => (setCell_uncover_grid b' x y qy qx).1)
          (fun qy qx => (setCell_uncover_grid b' x y qy qx).2.1) hinv
      have hnm1 : ¬ (b'.setCell x y 3 0).getCell x y 1 = some 1 := by
        intro hc
        obtain ⟨hin1, hb⟩ := getCell_bomb_iff.mp hc
        apply hnm
        apply getCell_bomb_iff.mpr
        constructor
        · rwa [inMap_congr (b'.setCell_w x y 3 0) (b'.setCell_h x y 3 0)] at hin1
        · rwa [(setCell_uncover_grid b' x y y x).2.1] at hb
      have hmine1 : ((b'.setCell x y 3 0).grid py px).bomb = 1 := by
        rw [(setCell_uncover_grid b' x y py px).2.1]
        exact hbomb
      have hpres := floodAux_mines_covered (b'.w * b'.h) (b'.setCell x y 3 0)
        x y ∅ hinv1 hnm1 py px hmine1
      rw [hpres, hb1 py px hbomb]
    · rw [hb1 py px hbomb]
  · intro g x y draws2 gr hst hnm hclick hlose
    unfold cellClicked at hclick
    rw [hst] at hclick
    simp only [if_true, Option.some.injEq] at hclick
    subst hclick
    unfold clickedBody at hlose
    by_cases h2 : g.board.getCell x y 2 = some 1
    · rw [if_pos h2] at hlose
      exact hlose
    · rw [if_neg h2, if_neg hnm] at hlose
      by_cases h3 : g.board.getCell x y 3 = some 1
      · rw [if_pos h3] at hlose
        by_cases hwin : GameMap.checkWin ((g.board.floodFill x y).board) = true
        · rw [if_pos hwin] at hlose
          rw [finish_status] at hlose
          exact absurd hlose (by decide)
        · rw [if_neg hwin] at hlose
          exact hlose
      · rw [if_neg h3] at hlose
        exact hlose

/-- The board of the C10 witness: 4×4, one bomb drawn at `(3, 3)`. -/
def c10Board : GameMap := ((mkMap 4 4).generateBombs 1 0 0 [(3, 3)]).getD (mkMap 0 0)

/-- Witness for C10 at the concrete one-bomb 4×4 board. -/
theorem c10_witness :
    (∀ x y : Int, c10Board.getCell x y 1 = some 1 → 1 ≤ (c10Board.grid y x).num) ∧
    (∀ x y : Int, ¬ c10Board.getCell x y 1 = some 1 →
      ∀ py px : Int, (c10Board.grid py px).bomb = 1 →
        (((c10Board.floodFill x y).board.grid py px)).covered =
          (c10Board.grid py px).covered) ∧
    (∀ (g : GameState) (x y : Int) (draws2 : List (Int × Int))
       (gr : GameState × Bool),
      g.started = true → ¬ g.board.getCell x y 1 = some 1 →
      cellClicked g x y draws2 = some gr →
      gr.1.status = "lose" → g.status = "lose") :=
  c10_loss_only_by_mine_click (mkMap 4 4) 1 0 0 [(3, 3)] c10Board
    (fun qy qx => ⟨rfl, Nat.zero_ne_one⟩) (by decide)
    (option_eq_some_getD _ _ (by decide))
